import Mathlib

/-! # gosanitize: a whitelist-based HTML sanitizer

Shallow embedding of `sanitize.go` and the properties of its specification.

Representation choices.

* A Go `string` that reaches the sanitizer's helpers is valid UTF-8 (the entry
  point rejects anything else), so it is carried by a Lean `String`, a sequence
  of Unicode scalar values.  Where the source indexes the bytes of a string
  (`isInternalLink`, `strings.HasPrefix`) the embedding goes through
  `utf8Bytes`, the UTF-8 encoding of the string, and works on those bytes.
* A Go `map[string]bool` is a function `String → Bool`; a missing key reads
  `false`.
* The two `bytes.Buffer`s of `Sanitize` are kept as the list of tokens whose
  `String()` was written to them, in order; the text of a buffer is the
  concatenation of the renderings of that list (`render`).
* The packages `code.google.com/p/go.net/html`, `net/url` and `unicode/utf8`
  are not part of the repository.  Their functions are the fields of `Lib`.
-/

namespace Gosanitize

/-! ## Strings as bytes -/

/-- UTF-8 encoding of one code point, as a list of byte values. -/
def utf8EncodeRune (r : Nat) : List Nat :=
  if r < 0x80 then [r]
  else if r < 0x800 then [0xC0 + r / 0x40, 0x80 + r % 0x40]
  else if r < 0x10000 then [0xE0 + r / 0x1000, 0x80 + r / 0x40 % 0x40, 0x80 + r % 0x40]
  else [0xF0 + r / 0x40000, 0x80 + r / 0x1000 % 0x40, 0x80 + r / 0x40 % 0x40, 0x80 + r % 0x40]

/-- UTF-8 encoding of a sequence of characters. -/
def utf8BytesOf : List Char → List Nat
  | [] => []
  | c :: cs => utf8EncodeRune c.toNat ++ utf8BytesOf cs

/-- The bytes of a Go string: `[]byte(s)`. -/
def utf8Bytes (s : String) : List Nat := utf8BytesOf s.data

/-- Go `strings.HasPrefix(s, p)`: the bytes of `p` start the bytes of `s`. -/
def HasPrefix (s p : String) : Bool := (utf8Bytes p).isPrefixOf (utf8Bytes s)

/-- Go `unicode.IsSpace`: the Latin-1 white space characters and the
characters of the Unicode `White_Space` property above Latin-1. -/
def IsSpace (c : Char) : Bool :=
  let r := c.toNat
  if r ≤ 0xFF then
    r = 0x09 || r = 0x0A || r = 0x0B || r = 0x0C || r = 0x0D || r = 0x20 || r = 0x85 || r = 0xA0
  else
    r = 0x1680 || (0x2000 ≤ r && r ≤ 0x200A) || r = 0x2028 || r = 0x2029 || r = 0x202F
      || r = 0x205F || r = 0x3000

/-- Go `strings.TrimSpace`: the string without its leading and trailing white
space. -/
def TrimSpace (s : String) : String :=
  ⟨((s.data.dropWhile IsSpace).reverse.dropWhile IsSpace).reverse⟩

/-! ## The tokens of the `html` package -/

/-- The `html.TokenType` enumeration. -/
inductive TokenType where
  | ErrorToken
  | TextToken
  | StartTagToken
  | EndTagToken
  | SelfClosingTagToken
  | CommentToken
  | DoctypeToken
  deriving DecidableEq, Repr

/-- The `html.Attribute` structure. -/
structure Attribute where
  Namespace : String
  Key : String
  Val : String
  deriving DecidableEq, Repr

/-- The `html.Token` structure.  The field `Type` is written `Typ` (`Type` is
reserved), and `DataAtom`, which the sanitizer never reads, is left out. -/
structure Token where
  Typ : TokenType
  Data : String
  Attr : List Attribute
  deriving DecidableEq, Repr

/-- What a tokenizer run over an input yields: the tokens returned by
`z.Token()` for the successive calls of `z.Next()`, and the value of `z.Err()`
once `z.Next()` has returned `ErrorToken` (`none` stands for `io.EOF`). -/
structure TokenStream where
  tokens : List Token
  err : Option String

/-- The functions of the packages the sanitizer imports. -/
structure Lib where
  /-- Library function `utf8.ValidString`. -/
  ValidString : String → Bool
  /-- Library tokenizer: `html.NewTokenizer` with `Next`, `Token` and `Err`. -/
  Tokenize : String → TokenStream
  /-- Library method `html.Token.String`. -/
  TokenString : Token → String
  /-- Library function `url.Parse`: on success the `Scheme` of the parsed URL and the
  result of its `String` method, `none` on a parse error. -/
  UrlParse : String → Option (String × String)

/-! ## The sanitizer -/

/-- The `sanitizer` structure. -/
structure sanitizer where
  Elements : List String
  elementsMap : String → Bool
  Attributes : List String
  attributesMap : String → Bool
  StripHtml : Bool
  EnsureInPairs : Bool
  ForceTargetBlank : Bool
  ForceRelNofollow : Bool
  ForceHrefLink : Bool
  URISchemes : List String
  uriSchemesMap : String → Bool

def acceptableTagsList : List String :=
  ["h1", "h2", "h3", "h4", "h5", "h6",
   "p", "hr", "pre", "blockquote", "div", "a", "code", "br", "img",
   "ol", "ul", "li",
   "em", "strong", "small", "strike", "i", "b", "u",
   "table", "caption", "colgroup", "col", "tbody", "thead", "tfoot", "tr", "td", "th"]

def acceptableAttributesList : List String :=
  ["valign", "align",
   "rows", "cols", "colspan", "cellpadding", "cellspacing", "rowspan",
   "title", "href", "alt", "rel", "target", "src",
   "selected", "checked"]

def unacceptableTags : List String := ["script", "applet", "style"]

def acceptableUriSchemes : List String :=
  ["aim", "apt", "bitcoin", "callto", "cvs", "facetime", "feed", "ftp", "git", "gopher",
   "gtalk", "http", "https", "imap", "irc", "itms", "jabber", "magnet", "mailto", "mms",
   "msnim", "news", "nntp", "rtmp", "rtsp", "sftp", "skype", "svn", "ymsgr"]

def html5SelfClosingTags : List String :=
  ["br", "img", "hr", "area", "base", "col", "command", "embed", "input", "keygen", "link",
   "meta", "param", "source", "track", "wbr"]

/-- The map built by `slice2map`: every element of the list is set to `true`,
one after the other, starting from the empty map. -/
def slice2map (list : List String) : String → Bool :=
  list.foldl (fun rt l => fun k => if k = l then true else rt k) (fun _ => false)

/-- The package variable `unacceptableTagsMap`, as `setting` assigns it at the
start of every call of `Sanitize`. -/
def unacceptableTagsMap : String → Bool := slice2map unacceptableTags

/-- The package variable `html5SelfClosingTagsMap`, as `setting` assigns it at
the start of every call of `Sanitize`. -/
def html5SelfClosingTagsMap : String → Bool := slice2map html5SelfClosingTags

/-- The constructor `New`: every field has its zero value. -/
def New : sanitizer where
  Elements := []
  elementsMap := fun _ => false
  Attributes := []
  attributesMap := fun _ => false
  StripHtml := false
  EnsureInPairs := false
  ForceTargetBlank := false
  ForceRelNofollow := false
  ForceHrefLink := false
  URISchemes := []
  uriSchemesMap := fun _ => false

/-- The constructor `NewStrip`. -/
def NewStrip : sanitizer := { New with StripHtml := true }

/-- The method `StrictMode`. -/
def StrictMode (s : sanitizer) : sanitizer :=
  { s with EnsureInPairs := true, ForceHrefLink := true, ForceTargetBlank := true,
           ForceRelNofollow := true }

/-- The constructor `NewDefault`. -/
def NewDefault : sanitizer :=
  StrictMode { New with StripHtml := false, Elements := acceptableTagsList,
                        Attributes := acceptableAttributesList,
                        URISchemes := acceptableUriSchemes }

/-- The method `setting`: the state of the sanitizer after it. -/
def setting (s : sanitizer) : sanitizer :=
  let s := if s.Elements.length > 0 then { s with StripHtml := false } else s
  { s with attributesMap := slice2map s.Attributes,
           elementsMap := slice2map s.Elements,
           uriSchemesMap := slice2map s.URISchemes }

/-- The loop of `forceHttpScheme` over the scheme list. -/
def forceHttpSchemeLoop (l : String) : List String → String
  | [] => "http://" ++ l
  | sch :: rest => if HasPrefix l sch then l else forceHttpSchemeLoop l rest

/-- The method `forceHttpScheme`. -/
def forceHttpScheme (s : sanitizer) (l : String) : String :=
  forceHttpSchemeLoop l s.URISchemes

/-- The function `isInternalLink`. -/
def isInternalLink (url : String) : Bool :=
  let link := utf8Bytes url
  let yes := false
  let yes := if link.length > 0 ∧ link.getD 0 0 = 0x23 then true else yes
  let yes := if link.length ≥ 2 ∧ link.getD 0 0 = 0x2F ∧ link.getD 1 0 ≠ 0x2F then true else yes
  let yes := if link.length = 1 ∧ link.getD 0 0 = 0x2F then true else yes
  yes

/-- The method `sanitizeLink`. -/
def sanitizeLink (lib : Lib) (s : sanitizer) (l : String) : String :=
  if TrimSpace l = "" then ""
  else if isInternalLink l then l
  else if s.ForceHrefLink then forceHttpScheme s l
  else
    match lib.UrlParse l with
    | none => ""
    | some (scheme, str) => if s.uriSchemesMap scheme then "" else str

/-- The local variables of `sanitizeAttributes`. -/
structure AttrState where
  attrs : List Attribute
  is_link : Bool
  is_internal_link : Bool
  no_target : Bool
  no_rel : Bool

/-- The body of the `for` loop of `sanitizeAttributes`, for one attribute `a`.
The successive values of `a.Val` are `val1`, `val2` and `val3`. -/
def attrStep (lib : Lib) (s : sanitizer) (st : AttrState) (a : Attribute) : AttrState :=
  if s.attributesMap a.Key then
    let val1 := if a.Key = "href" ∨ a.Key = "src" then sanitizeLink lib s a.Val else a.Val
    let is_link := if a.Key = "href" then true else st.is_link
    let is_internal_link := if a.Key = "href" then isInternalLink val1 else st.is_internal_link
    let force_target : Bool :=
      a.Key = "target" ∧ is_internal_link = false ∧ s.ForceTargetBlank = true
    let no_target := if force_target then false else st.no_target
    let val2 := if force_target then "_blank" else val1
    let force_rel : Bool :=
      a.Key = "rel" ∧ is_internal_link = false ∧ s.ForceRelNofollow = true
    let no_rel := if force_rel then false else st.no_rel
    let val3 := if force_rel then "nofollow" else val2
    { attrs := st.attrs ++ [{ a with Val := val3 }],
      is_link := is_link,
      is_internal_link := is_internal_link,
      no_target := no_target,
      no_rel := no_rel }
  else st

/-- The values of the local variables of `sanitizeAttributes` before its loop. -/
def attrInit : AttrState :=
  { attrs := [], is_link := false, is_internal_link := false, no_target := true, no_rel := true }

/-- The statements of `sanitizeAttributes` after its loop: the attributes
appended to an external link. -/
def attrFinish (s : sanitizer) (st : AttrState) : List Attribute :=
  if st.is_link && !st.is_internal_link then
    let attrs := st.attrs
    let attrs := if st.no_rel && s.ForceRelNofollow then
        attrs ++ [{ Namespace := "", Key := "rel", Val := "nofollow" }]
      else attrs
    let attrs := if st.no_target && s.ForceTargetBlank then
        attrs ++ [{ Namespace := "", Key := "target", Val := "_blank" }]
      else attrs
    attrs
  else st.attrs

/-- The method `sanitizeAttributes`: the token after its attributes have been
replaced. -/
def sanitizeAttributes (lib : Lib) (s : sanitizer) (t : Token) : Token :=
  { t with Attr := attrFinish s (t.Attr.foldl (attrStep lib s) attrInit) }

/-- The local variables of `Sanitize` that its loop updates.  A buffer is the
list of the tokens written to it. -/
structure LoopState where
  buf : List Token
  strip : List Token
  skip : Int
  startTags : Nat
  endTags : Nat

/-- The values of the local variables of `Sanitize` before its loop. -/
def loopInit : LoopState :=
  { buf := [], strip := [], skip := 0, startTags := 0, endTags := 0 }

/-- The body of the loop of `Sanitize` for one token `t := z.Token()`. -/
def loopStep (lib : Lib) (s : sanitizer) (st : LoopState) (t : Token) : LoopState :=
  if t.Typ = TokenType.StartTagToken ∨ t.Typ = TokenType.SelfClosingTagToken then
    let st := if t.Typ = TokenType.StartTagToken then
        (if !html5SelfClosingTagsMap t.Data then { st with startTags := st.startTags + 1 } else st)
      else st
    if !s.elementsMap t.Data then
      if unacceptableTagsMap t.Data && t.Typ != TokenType.SelfClosingTagToken then
        { st with skip := st.skip + 1 }
      else st
    else
      { st with buf := st.buf ++ [sanitizeAttributes lib s t] }
  else if t.Typ = TokenType.EndTagToken then
    let st := { st with endTags := st.endTags + 1 }
    if !s.elementsMap t.Data then
      if unacceptableTagsMap t.Data then { st with skip := st.skip - 1 } else st
    else
      { st with buf := st.buf ++ [t] }
  else if st.skip = 0 then
    let st := { st with buf := st.buf ++ [t] }
    if t.Typ = TokenType.TextToken ∧ s.StripHtml = true then
      { st with strip := st.strip ++ [t] }
    else st
  else st

/-- The loop of `Sanitize`.  It ends when `z.Next()` returns `ErrorToken` (a
token of that type, or the end of the stream): with the state reached when
`z.Err()` is `io.EOF`, with the error otherwise. -/
def tokenLoop (lib : Lib) (s : sanitizer) (err : Option String) :
    List Token → LoopState → Except String LoopState
  | [], st =>
    match err with
    | none => Except.ok st
    | some e => Except.error e
  | t :: ts, st =>
    if t.Typ = TokenType.ErrorToken then
      match err with
      | none => Except.ok st
      | some e => Except.error e
    else tokenLoop lib s err ts (loopStep lib s st t)

/-- The text of a buffer: the renderings of the tokens written to it. -/
def render (lib : Lib) (written : List Token) : String :=
  String.join (written.map lib.TokenString)

/-- The method `Sanitize`.  The result is the state of the receiver after the
call, the returned string and the returned error (`none` for `nil`). -/
def Sanitize (lib : Lib) (s : sanitizer) (str : String) : sanitizer × String × Option String :=
  if !lib.ValidString str then (s, "", some "Invalid UTF-8 encoding string!")
  else
    let s := setting s
    let z := lib.Tokenize (TrimSpace str)
    match tokenLoop lib s z.err z.tokens loopInit with
    | Except.error e => (s, str, some e)
    | Except.ok st =>
      if s.EnsureInPairs && st.startTags != st.endTags then (s, "", some "Tags pairs mismatch!")
      else if s.StripHtml then (s, render lib st.strip, none)
      else (s, render lib st.buf, none)

/-! ## Vocabulary of the specification -/

/-- A tag token: a start, self-closing or end tag. -/
def Token.isTag (t : Token) : Bool :=
  t.Typ = TokenType.StartTagToken || t.Typ = TokenType.SelfClosingTagToken
    || t.Typ = TokenType.EndTagToken

/-- The tokens that the loop of `Sanitize` reads from a stream: those that come
before the first `ErrorToken`. -/
def readTokens (toks : List Token) : List Token :=
  toks.takeWhile (fun t => t.Typ != TokenType.ErrorToken)

/-- The number of start-tag tokens whose name is not an HTML5 void element
(self-closing tokens are not start-tag tokens). -/
def countStartTags (toks : List Token) : Nat :=
  toks.countP (fun t => t.Typ = TokenType.StartTagToken ∧ t.Data ∉ html5SelfClosingTags)

/-- The number of end-tag tokens. -/
def countEndTags (toks : List Token) : Nat :=
  toks.countP (fun t => t.Typ = TokenType.EndTagToken)

/-- The text tokens of a stream that are not nested inside a `script`,
`applet` or `style` element, in document order.  `depth` is the number of such
elements that are open: a start tag opens one, an end tag closes one when one
is open. -/
def textOutsideRemoved : Nat → List Token → List Token
  | _, [] => []
  | depth, t :: ts =>
    if t.Typ = TokenType.StartTagToken ∧ t.Data ∈ unacceptableTags then
      textOutsideRemoved (depth + 1) ts
    else if t.Typ = TokenType.EndTagToken ∧ t.Data ∈ unacceptableTags then
      textOutsideRemoved (depth - 1) ts
    else if t.Typ = TokenType.TextToken ∧ depth = 0 then
      t :: textOutsideRemoved depth ts
    else textOutsideRemoved depth ts

/-- An attribute after the first statement of the loop of `sanitizeAttributes`
when it is a `src`: its value is replaced by `sanitizeLink`; any other
attribute as it is. -/
def rewriteSrc (lib : Lib) (s : sanitizer) (x : Attribute) : Attribute :=
  if x.Key = "src" then { x with Val := sanitizeLink lib s x.Val } else x

/-! ## A library instance for evaluating examples

`Token.String` of the `html` package is written out; the tokenizer is given by
its result on a handful of inputs. -/

/-- The replacement of one character by `html.EscapeString`. -/
def escapeChar (c : Char) : String :=
  if c = '&' then "&amp;"
  else if c = Char.ofNat 39 then "&#39;"
  else if c = '<' then "&lt;"
  else if c = '>' then "&gt;"
  else if c = Char.ofNat 34 then "&#34;"
  else if c = Char.ofNat 13 then "&#13;"
  else String.singleton c

/-- Library function `html.EscapeString`. -/
def EscapeString (s : String) : String := String.join (s.data.map escapeChar)

/-- The method `tagString` of `html.Token`: the name followed by the attributes. -/
def tagString (t : Token) : String :=
  t.Attr.foldl
    (fun acc a => acc ++ " " ++ a.Key ++ "=" ++ String.singleton (Char.ofNat 34)
      ++ EscapeString a.Val ++ String.singleton (Char.ofNat 34))
    t.Data

/-- The method `String` of `html.Token`. -/
def TokenString (t : Token) : String :=
  match t.Typ with
  | TokenType.ErrorToken => ""
  | TokenType.TextToken => EscapeString t.Data
  | TokenType.StartTagToken => "<" ++ tagString t ++ ">"
  | TokenType.EndTagToken => "</" ++ tagString t ++ ">"
  | TokenType.SelfClosingTagToken => "<" ++ tagString t ++ "/>"
  | TokenType.CommentToken => "<!--" ++ t.Data ++ "-->"
  | TokenType.DoctypeToken => "<!DOCTYPE " ++ t.Data ++ ">"

/-- A start-tag token. -/
def startTag (name : String) (attrs : List Attribute) : Token :=
  { Typ := TokenType.StartTagToken, Data := name, Attr := attrs }

/-- An end-tag token. -/
def endTag (name : String) : Token :=
  { Typ := TokenType.EndTagToken, Data := name, Attr := [] }

/-- A text token. -/
def textToken (data : String) : Token :=
  { Typ := TokenType.TextToken, Data := data, Attr := [] }

/-- The double quote, as a string. -/
def dq : String := String.singleton (Char.ofNat 34)

/-- The input `<a href=.abc.com.>x</a>`, with double quotes for the dots. -/
def linkBare : String := "<a href=" ++ dq ++ "abc.com" ++ dq ++ ">x</a>"

/-- The same link after `http://` has been put in front of its `href`. -/
def linkHttp : String := "<a href=" ++ dq ++ "http://abc.com" ++ dq ++ ">x</a>"

/-- The same link after `http://` has been put in front of its `href` twice. -/
def linkHttpTwice : String := "<a href=" ++ dq ++ "http://http://abc.com" ++ dq ++ ">x</a>"

/-- The same link with `rel` and `target` appended. -/
def linkHttpForced : String :=
  "<a href=" ++ dq ++ "http://abc.com" ++ dq ++ " rel=" ++ dq ++ "nofollow" ++ dq
    ++ " target=" ++ dq ++ "_blank" ++ dq ++ ">x</a>"

/-- The same link with `target` before `rel`. -/
def linkHttpSwapped : String :=
  "<a href=" ++ dq ++ "http://abc.com" ++ dq ++ " target=" ++ dq ++ "_blank" ++ dq
    ++ " rel=" ++ dq ++ "nofollow" ++ dq ++ ">x</a>"

/-- The token streams of the `html` tokenizer on a few inputs. -/
def tableTokenize (input : String) : TokenStream :=
  if input = "<html>html document</html>" then
    { tokens := [startTag "html" [], textToken "html document", endTag "html"], err := none }
  else if input = "<script>alert(1);</script>" then
    { tokens := [startTag "script" [], textToken "alert(1);", endTag "script"], err := none }
  else if input = "<p>default p</p>" then
    { tokens := [startTag "p" [], textToken "default p", endTag "p"], err := none }
  else if input = "<applet><p>hi</p></applet>" then
    { tokens := [startTag "applet" [], startTag "p" [], textToken "hi", endTag "p",
                 endTag "applet"], err := none }
  else if input = "</style>hello" then
    { tokens := [endTag "style", textToken "hello"], err := none }
  else if input = "<pre>so what" then
    { tokens := [startTag "pre" [], textToken "so what"], err := none }
  else if input = "<html></p>" then
    { tokens := [startTag "html" [], endTag "p"], err := none }
  else if input = "</p>" then
    { tokens := [endTag "p"], err := none }
  else if input = "<html> hi </html>" then
    { tokens := [startTag "html" [], textToken " hi ", endTag "html"], err := none }
  else if input = "hi" then
    { tokens := [textToken "hi"], err := none }
  else if input = "<html>a</html>b" then
    { tokens := [startTag "html" [], textToken "a", endTag "html", textToken "b"], err := none }
  else if input = "ab" then
    { tokens := [textToken "ab"], err := none }
  else if input = linkBare then
    { tokens := [startTag "a" [{ Namespace := "", Key := "href", Val := "abc.com" }],
                 textToken "x", endTag "a"], err := none }
  else if input = linkHttp then
    { tokens := [startTag "a" [{ Namespace := "", Key := "href", Val := "http://abc.com" }],
                 textToken "x", endTag "a"], err := none }
  else if input = linkHttpForced then
    { tokens := [startTag "a" [{ Namespace := "", Key := "href", Val := "http://abc.com" },
                               { Namespace := "", Key := "rel", Val := "nofollow" },
                               { Namespace := "", Key := "target", Val := "_blank" }],
                 textToken "x", endTag "a"], err := none }
  else
    { tokens := [], err := some "input outside the table" }

/-- The library instance of the examples. -/
def tableLib : Lib :=
  { ValidString := fun _ => true,
    Tokenize := tableTokenize,
    TokenString := TokenString,
    UrlParse := fun _ => none }

/-! ## Configurations of the examples -/

/-- The configuration of `Test_Sanitize_TagsList`. -/
def tagsListSanitizer : sanitizer :=
  StrictMode { New with Elements := ["a", "br", "p", "pre", "img"],
                        Attributes := ["href", "src"],
                        URISchemes := ["http", "https", "ftp"] }

/-- A configuration with `StripHtml` set and a non-empty element list. -/
def stripWithElements : sanitizer := { New with StripHtml := true, Elements := ["p"] }

/-- A configuration whose element list names `script`. -/
def scriptAllowed : sanitizer := { New with Elements := ["script"] }

/-- A strict configuration that accepts `src` and `rel` on images. -/
def srcRelSanitizer : sanitizer :=
  StrictMode { New with Elements := ["img"], Attributes := ["src", "rel"],
                        URISchemes := ["http", "https", "ftp"] }

/-! ## Further examples -/

/-- The results of `url.Parse` on two inputs: the scheme and the string of
the parsed URL. -/
def tableUrlParse (l : String) : Option (String × String) :=
  if l = "javascript:alert(1);" then some ("javascript", "javascript:alert(1);")
  else if l = "http://example.com/" then some ("http", "http://example.com/")
  else none

/-- The library instance of the examples, with `url.Parse` defined on the
inputs of `tableUrlParse`. -/
def parseLib : Lib := { tableLib with UrlParse := tableUrlParse }

/-- A configuration with the default scheme list and `ForceHrefLink` unset. -/
def parseSanitizer : sanitizer :=
  { New with Elements := ["a"], Attributes := ["href"], URISchemes := acceptableUriSchemes }

/-- The attribute that `sanitizeAttributes` appends under `ForceRelNofollow`. -/
def relNofollow : Attribute := { Namespace := "", Key := "rel", Val := "nofollow" }

/-- The attribute that `sanitizeAttributes` appends under `ForceTargetBlank`. -/
def targetBlank : Attribute := { Namespace := "", Key := "target", Val := "_blank" }

/-- A tag token as the loop of `Sanitize` writes it: an end tag as it is, a
start or self-closing tag after `sanitizeAttributes`. -/
def emitTag (lib : Lib) (s : sanitizer) (t : Token) : Token :=
  if t.Typ = TokenType.EndTagToken then t else sanitizeAttributes lib s t

/-- The tokens written to the buffer that `Sanitize` returns, on a valid input
whose tokenization stops at the end of the input: the stripped-text buffer when
`StripHtml` is set after `setting`, the output buffer otherwise. -/
def writtenTokens (lib : Lib) (s : sanitizer) (str : String) : List Token :=
  if (setting s).StripHtml then
    (List.foldl (loopStep lib (setting s)) loopInit
      (readTokens (lib.Tokenize (TrimSpace str)).tokens)).strip
  else
    (List.foldl (loopStep lib (setting s)) loopInit
      (readTokens (lib.Tokenize (TrimSpace str)).tokens)).buf

/-- A configuration with `ForceHrefLink` set and an empty scheme list. -/
def noSchemeSanitizer : sanitizer :=
  { New with Elements := ["a"], Attributes := ["href"], ForceHrefLink := true }

/-- A strict configuration that accepts `target` but not `rel`. -/
def targetOnlySanitizer : sanitizer :=
  StrictMode { New with Elements := ["a"], Attributes := ["href", "target"],
                        URISchemes := ["http"] }

/-- Library property: a URL that `url.Parse` has serialized, and whose scheme
is not in `URISchemes`, is either empty or not blank, and when it is not an
internal link `url.Parse` reads it back with the same scheme and the same
string. -/
def ParseReadsBack (lib : Lib) (s : sanitizer) : Prop :=
  ∀ l scheme str, lib.UrlParse l = some (scheme, str) → scheme ∉ s.URISchemes →
    (str = "" ∨ TrimSpace str ≠ "") ∧
    (isInternalLink str = true ∨ lib.UrlParse str = some (scheme, str))

/-! ## Properties of the link policy -/

theorem utf8EncodeRune_ascii (r : Nat) (h : r < 0x80) : utf8EncodeRune r = [r] := by
  simp [utf8EncodeRune, h]

theorem utf8EncodeRune_multibyte (r : Nat) (h : 0x80 ≤ r) :
    ∃ b c rest, utf8EncodeRune r = b :: c :: rest ∧ 0xC0 ≤ b ∧ 0x80 ≤ c := by
  have h1 : ¬ r < 0x80 := by omega
  unfold utf8EncodeRune
  rw [if_neg h1]
  by_cases h2 : r < 0x800
  · rw [if_pos h2]
    exact ⟨_, _, _, rfl, by omega, by omega⟩
  · rw [if_neg h2]
    by_cases h3 : r < 0x10000
    · rw [if_pos h3]
      exact ⟨_, _, _, rfl, by omega, by omega⟩
    · rw [if_neg h3]
      exact ⟨_, _, _, rfl, by omega, by omega⟩

theorem char_eq_of_toNat (c d : Char) (h : c.toNat = d.toNat) : c = d := by
  rw [← Char.ofNat_toNat c, ← Char.ofNat_toNat d, h]

theorem ite_chain_true (p q r : Prop) [Decidable p] [Decidable q] [Decidable r] :
    (if r then true else if q then true else if p then true else false) = true ↔ p ∨ q ∨ r := by
  by_cases hp : p <;> by_cases hq : q <;> by_cases hr : r <;> simp [hp, hq, hr]

/-- The value of `isInternalLink` in terms of the three tests of the source. -/
theorem isInternalLink_bytes (url : String) :
    isInternalLink url = true ↔
      ((utf8Bytes url).length > 0 ∧ (utf8Bytes url).getD 0 0 = 0x23) ∨
      ((utf8Bytes url).length ≥ 2 ∧ (utf8Bytes url).getD 0 0 = 0x2F ∧
        (utf8Bytes url).getD 1 0 ≠ 0x2F) ∨
      ((utf8Bytes url).length = 1 ∧ (utf8Bytes url).getD 0 0 = 0x2F) := by
  unfold isInternalLink
  exact ite_chain_true _ _ _

/-- The first byte of an encoded sequence is the first character when that
character is ASCII, and is at least `0xC0` otherwise. -/
theorem utf8BytesOf_cons (c : Char) (cs : List Char) :
    (c.toNat < 0x80 ∧ utf8BytesOf (c :: cs) = c.toNat :: utf8BytesOf cs) ∨
    (0x80 ≤ c.toNat ∧ ∃ b b2 rest, utf8BytesOf (c :: cs) = b :: b2 :: rest ∧ 0xC0 ≤ b) := by
  by_cases h : c.toNat < 0x80
  · left
    exact ⟨h, by simp [utf8BytesOf, utf8EncodeRune_ascii _ h]⟩
  · right
    have h2 : 0x80 ≤ c.toNat := by omega
    obtain ⟨b, b2, rest, he, hb, _⟩ := utf8EncodeRune_multibyte _ h2
    exact ⟨h2, b, b2, rest ++ utf8BytesOf cs, by simp [utf8BytesOf, he], hb⟩

/-- The characters of a string on which `isInternalLink` answers `true`. -/
theorem isInternalLink_chars (cs : List Char) :
    isInternalLink ⟨cs⟩ = true ↔
      cs = ['/'] ∨ (∃ rest, cs = '#' :: rest) ∨ (∃ c rest, cs = '/' :: c :: rest ∧ c ≠ '/') := by
  rw [isInternalLink_bytes]
  have hs : ('/' : Char).toNat = 0x2F := by decide
  have hh : ('#' : Char).toNat = 0x23 := by decide
  show (((utf8BytesOf cs).length > 0 ∧ (utf8BytesOf cs).getD 0 0 = 0x23) ∨ _ ∨ _) ↔ _
  simp only [utf8Bytes]
  cases cs with
  | nil => simp [utf8BytesOf]
  | cons c rest =>
    rcases utf8BytesOf_cons c rest with ⟨hc, he⟩ | ⟨hc, b, b2, tl, he, hb⟩
    · rw [he]
      have e1 : c.toNat = 0x23 ↔ c = '#' :=
        ⟨fun h => char_eq_of_toNat _ _ (by rw [h, hh]), fun h => by rw [h, hh]⟩
      have e2 : c.toNat = 0x2F ↔ c = '/' :=
        ⟨fun h => char_eq_of_toNat _ _ (by rw [h, hs]), fun h => by rw [h, hs]⟩
      cases rest with
      | nil =>
        simp only [utf8BytesOf, List.length_cons, List.length_nil, List.getD_cons_zero]
        constructor
        · rintro (⟨_, h⟩ | ⟨h, _⟩ | ⟨_, h⟩)
          · exact Or.inr (Or.inl ⟨[], by rw [e1.mp h]⟩)
          · omega
          · exact Or.inl (by rw [e2.mp h])
        · rintro (h | ⟨r, h⟩ | ⟨d, r, h, _⟩)
          · simp only [List.cons.injEq, and_true] at h
            exact Or.inr (Or.inr ⟨trivial, e2.mpr h⟩)
          · simp only [List.cons.injEq] at h
            exact Or.inl ⟨by omega, e1.mpr h.1⟩
          · simp at h
      | cons d rest2 =>
        rcases utf8BytesOf_cons d rest2 with ⟨hd, hde⟩ | ⟨hd, b, b2, tl, hde, hb⟩
        · rw [hde]
          have e3 : d.toNat = 0x2F ↔ d = '/' :=
            ⟨fun h => char_eq_of_toNat _ _ (by rw [h, hs]), fun h => by rw [h, hs]⟩
          simp only [List.length_cons, List.getD_cons_zero, List.getD_cons_succ]
          constructor
          · rintro (⟨_, h⟩ | ⟨_, h, h2⟩ | ⟨h, _⟩)
            · exact Or.inr (Or.inl ⟨_, by rw [e1.mp h]⟩)
            · exact Or.inr (Or.inr ⟨d, rest2, by rw [e2.mp h], fun hd2 => h2 (e3.mpr hd2)⟩)
            · omega
          · rintro (h | ⟨r, h⟩ | ⟨d2, r, h, hne⟩)
            · simp at h
            · simp only [List.cons.injEq] at h
              exact Or.inl ⟨by omega, e1.mpr h.1⟩
            · simp only [List.cons.injEq] at h
              obtain ⟨hc2, hd2, _⟩ := h
              refine Or.inr (Or.inl ⟨by omega, e2.mpr hc2, fun h3 => hne ?_⟩)
              rw [← hd2]; exact e3.mp h3
        · rw [hde]
          simp only [List.length_cons, List.getD_cons_zero, List.getD_cons_succ]
          constructor
          · rintro (⟨_, h⟩ | ⟨_, h, h2⟩ | ⟨h, _⟩)
            · exact Or.inr (Or.inl ⟨_, by rw [e1.mp h]⟩)
            · refine Or.inr (Or.inr ⟨d, rest2, by rw [e2.mp h], fun hd2 => ?_⟩)
              rw [hd2, hs] at hd; omega
            · omega
          · rintro (h | ⟨r, h⟩ | ⟨d2, r, h, hne⟩)
            · simp at h
            · simp only [List.cons.injEq] at h
              exact Or.inl ⟨by omega, e1.mpr h.1⟩
            · simp only [List.cons.injEq] at h
              refine Or.inr (Or.inl ⟨by omega, e2.mpr h.1, by omega⟩)
    · rw [he]
      simp only [List.length_cons, List.getD_cons_zero, List.getD_cons_succ]
      constructor
      · rintro (⟨_, h⟩ | ⟨_, h, _⟩ | ⟨h, _⟩) <;> omega
      · rintro (h | ⟨r, h⟩ | ⟨d2, r, h, hne⟩)
        · simp only [List.cons.injEq] at h
          rw [h.1, hs] at hc; omega
        · simp only [List.cons.injEq] at h
          rw [h.1, hh] at hc; omega
        · simp only [List.cons.injEq] at h
          rw [h.1, hs] at hc; omega

theorem dropWhile_append_singleton_ne_nil (p : Char → Bool) (c : Char) (hc : p c = false)
    (l : List Char) : (l ++ [c]).dropWhile p ≠ [] := by
  induction l with
  | nil => simp [List.dropWhile_cons, hc]
  | cons x xs ih =>
    rw [List.cons_append, List.dropWhile_cons]
    split_ifs
    · exact ih
    · simp

/-- A string that starts with a character that is not white space is not
blank. -/
theorem TrimSpace_ne_empty (c : Char) (rest : List Char) (hc : IsSpace c = false) :
    TrimSpace ⟨c :: rest⟩ ≠ "" := by
  intro h
  have hd := congrArg String.data h
  simp only [TrimSpace, List.dropWhile_cons, hc, Bool.false_eq_true, if_false,
    List.reverse_cons] at hd
  have hne := dropWhile_append_singleton_ne_nil IsSpace c hc rest.reverse
  rw [List.reverse_eq_nil_iff] at hd
  exact hne hd

/-- An internal link is not blank. -/
theorem TrimSpace_internal (url : String) (h : isInternalLink url = true) :
    TrimSpace url ≠ "" := by
  have hs : IsSpace '/' = false := by decide
  have hh : IsSpace '#' = false := by decide
  obtain ⟨cs⟩ := url
  rcases (isInternalLink_chars cs).mp h with h1 | ⟨r, h1⟩ | ⟨c, r, h1, _⟩
  · rw [h1]; exact TrimSpace_ne_empty _ _ hs
  · rw [h1]; exact TrimSpace_ne_empty _ _ hh
  · rw [h1]; exact TrimSpace_ne_empty _ _ hs

/-- An internal link passes through `sanitizeLink`. -/
theorem sanitizeLink_of_internal (lib : Lib) (s : sanitizer) (url : String)
    (h : isInternalLink url = true) : sanitizeLink lib s url = url := by
  unfold sanitizeLink
  rw [if_neg (TrimSpace_internal url h), if_pos h]

/-! ## Properties of the lookup maps -/

theorem slice2map_foldl (l : List String) (init : String → Bool) (k : String) :
    l.foldl (fun rt l => fun k => if k = l then true else rt k) init k = true ↔
      k ∈ l ∨ init k = true := by
  induction l generalizing init with
  | nil => simp
  | cons x xs ih =>
    rw [List.foldl_cons, ih]
    by_cases h : k = x
    · simp [h]
    · simp [h]

/-- A key reads `true` in the map of a list exactly when it is in the list. -/
theorem slice2map_true (l : List String) (k : String) : slice2map l k = true ↔ k ∈ l := by
  unfold slice2map
  rw [slice2map_foldl]
  simp

theorem slice2map_false (l : List String) (k : String) : slice2map l k = false ↔ k ∉ l := by
  rw [← slice2map_true]
  cases slice2map l k <;> simp

/-! ## Properties of the token loop -/

/-- The loop of `Sanitize` folds its body over the tokens it reads. -/
theorem tokenLoop_eq (lib : Lib) (s : sanitizer) (err : Option String) (toks : List Token)
    (st : LoopState) :
    tokenLoop lib s err toks st =
      match err with
      | none => Except.ok (List.foldl (loopStep lib s) st (readTokens toks))
      | some e => Except.error e := by
  induction toks generalizing st with
  | nil => cases err <;> simp [tokenLoop, readTokens]
  | cons t ts ih =>
    unfold tokenLoop
    by_cases h : t.Typ = TokenType.ErrorToken
    · rw [if_pos h]
      cases err <;> simp [readTokens, List.takeWhile_cons, h]
    · rw [if_neg h, ih]
      cases err <;> simp [readTokens, List.takeWhile_cons, h]

theorem sanitizeAttributes_Typ (lib : Lib) (s : sanitizer) (t : Token) :
    (sanitizeAttributes lib s t).Typ = t.Typ := rfl

theorem sanitizeAttributes_Data (lib : Lib) (s : sanitizer) (t : Token) :
    (sanitizeAttributes lib s t).Data = t.Data := rfl

/-- One step of the loop writes a tag to the output buffer only when its name
reads `true` in the element map. -/
theorem loopStep_buf_tags (lib : Lib) (s : sanitizer) (st : LoopState) (t : Token)
    (h : ∀ x ∈ st.buf, x.isTag = true → s.elementsMap x.Data = true) :
    ∀ x ∈ (loopStep lib s st t).buf, x.isTag = true → s.elementsMap x.Data = true := by
  intro x hx htag
  unfold loopStep at hx
  split_ifs at hx <;>
    first
      | exact h x hx htag
      | (simp only [List.mem_append, List.mem_singleton] at hx
         rcases hx with hx | hx
         · exact h x hx htag
         · subst hx
           simp_all [Token.isTag, sanitizeAttributes])

theorem foldl_loopStep_invariant (lib : Lib) (s : sanitizer) (P : LoopState → Prop)
    (hstep : ∀ st t, P st → P (loopStep lib s st t)) (toks : List Token) (st : LoopState)
    (h : P st) : P (List.foldl (loopStep lib s) st toks) := by
  induction toks generalizing st with
  | nil => exact h
  | cons t ts ih => exact ih _ (hstep st t h)

theorem foldl_loopStep_invariant_mem (lib : Lib) (s : sanitizer) (P : LoopState → Prop)
    (toks : List Token) (hstep : ∀ st, ∀ t ∈ toks, P st → P (loopStep lib s st t))
    (st : LoopState) (h : P st) : P (List.foldl (loopStep lib s) st toks) := by
  induction toks generalizing st with
  | nil => exact h
  | cons t ts ih =>
    exact ih (fun st x hx => hstep st x (List.mem_cons_of_mem _ hx)) _
      (hstep st t (List.mem_cons_self _ _) h)

/-- One step of the loop writes only text tokens to the strip buffer, and
only when `StripHtml` is set. -/
theorem loopStep_strip (lib : Lib) (s : sanitizer) (st : LoopState) (t : Token)
    (h : ∀ x ∈ st.strip, x.Typ = TokenType.TextToken ∧ s.StripHtml = true) :
    ∀ x ∈ (loopStep lib s st t).strip, x.Typ = TokenType.TextToken ∧ s.StripHtml = true := by
  intro x hx
  unfold loopStep at hx
  split_ifs at hx with h1 h2 h3 h4 h5 h6 h7 h8 h9 h10 <;>
    first
      | exact h x hx
      | (simp only [List.mem_append, List.mem_singleton] at hx
         rcases hx with hx | hx
         · exact h x hx
         · subst hx
           assumption)

/-- The start-tag counter after one step of the loop. -/
theorem loopStep_startTags (lib : Lib) (s : sanitizer) (st : LoopState) (t : Token) :
    (loopStep lib s st t).startTags = st.startTags + countStartTags [t] := by
  have hv : html5SelfClosingTagsMap t.Data = true ↔ t.Data ∈ html5SelfClosingTags :=
    slice2map_true _ _
  unfold loopStep countStartTags
  split_ifs <;> simp_all [List.countP_cons]

/-- The end-tag counter after one step of the loop. -/
theorem loopStep_endTags (lib : Lib) (s : sanitizer) (st : LoopState) (t : Token) :
    (loopStep lib s st t).endTags = st.endTags + countEndTags [t] := by
  unfold loopStep countEndTags
  split_ifs <;> simp_all [List.countP_cons]

theorem countStartTags_cons (t : Token) (ts : List Token) :
    countStartTags (t :: ts) = countStartTags [t] + countStartTags ts := by
  simp [countStartTags, List.countP_cons, Nat.add_comm]

theorem countEndTags_cons (t : Token) (ts : List Token) :
    countEndTags (t :: ts) = countEndTags [t] + countEndTags ts := by
  simp [countEndTags, List.countP_cons, Nat.add_comm]

/-- The counters of the loop count the start tags that are not void elements
and the end tags. -/
theorem foldl_loopStep_counters (lib : Lib) (s : sanitizer) (toks : List Token)
    (st : LoopState) :
    (List.foldl (loopStep lib s) st toks).startTags = st.startTags + countStartTags toks ∧
    (List.foldl (loopStep lib s) st toks).endTags = st.endTags + countEndTags toks := by
  induction toks generalizing st with
  | nil => simp [countStartTags, countEndTags]
  | cons t ts ih =>
    rw [List.foldl_cons, (ih _).1, (ih _).2, loopStep_startTags, loopStep_endTags,
      countStartTags_cons t ts, countEndTags_cons t ts]
    omega

/-- The state in which the loop of `Sanitize` ends on the tokens of a stream. -/
theorem tokenLoop_eof (lib : Lib) (s : sanitizer) (toks : List Token) (st : LoopState) :
    tokenLoop lib s none toks st = Except.ok (List.foldl (loopStep lib s) st (readTokens toks)) := by
  rw [tokenLoop_eq]

theorem tokenLoop_error (lib : Lib) (s : sanitizer) (e : String) (toks : List Token)
    (st : LoopState) : tokenLoop lib s (some e) toks st = Except.error e := by
  rw [tokenLoop_eq]

/-- The result of `Sanitize` on a valid input whose tokenization stops at
the end of the input. -/
theorem Sanitize_eof (lib : Lib) (s : sanitizer) (str : String)
    (hv : lib.ValidString str = true) (he : (lib.Tokenize (TrimSpace str)).err = none) :
    (Sanitize lib s str).2 =
      if (setting s).EnsureInPairs = true ∧
          (List.foldl (loopStep lib (setting s)) loopInit
            (readTokens (lib.Tokenize (TrimSpace str)).tokens)).startTags ≠
          (List.foldl (loopStep lib (setting s)) loopInit
            (readTokens (lib.Tokenize (TrimSpace str)).tokens)).endTags
      then ("", some "Tags pairs mismatch!")
      else if (setting s).StripHtml = true then
        (render lib (List.foldl (loopStep lib (setting s)) loopInit
            (readTokens (lib.Tokenize (TrimSpace str)).tokens)).strip, none)
      else
        (render lib (List.foldl (loopStep lib (setting s)) loopInit
            (readTokens (lib.Tokenize (TrimSpace str)).tokens)).buf, none) := by
  unfold Sanitize
  simp only [hv, he, tokenLoop_eof, Bool.not_true, Bool.false_eq_true, if_false]
  split_ifs <;> simp_all

/-- A call of `Sanitize` that returns no error had a valid input and a
tokenization that ended at the end of the input. -/
theorem Sanitize_ok_inv (lib : Lib) (s : sanitizer) (str out : String)
    (h : (Sanitize lib s str).2 = (out, none)) :
    lib.ValidString str = true ∧ (lib.Tokenize (TrimSpace str)).err = none := by
  unfold Sanitize at h
  by_cases hv : lib.ValidString str = true
  · refine ⟨hv, ?_⟩
    cases he : (lib.Tokenize (TrimSpace str)).err with
    | none => rfl
    | some e =>
      simp only [hv, he, tokenLoop_error, Bool.not_true, Bool.false_eq_true, if_false] at h
      simp at h
  · simp [hv] at h

theorem setting_EnsureInPairs (s : sanitizer) : (setting s).EnsureInPairs = s.EnsureInPairs := by
  unfold setting
  split_ifs <;> rfl

theorem setting_elementsMap (s : sanitizer) : (setting s).elementsMap = slice2map s.Elements := by
  unfold setting
  split_ifs <;> rfl

theorem setting_attributesMap (s : sanitizer) :
    (setting s).attributesMap = slice2map s.Attributes := by
  unfold setting
  split_ifs <;> rfl

theorem setting_StripHtml (s : sanitizer) :
    (setting s).StripHtml = (s.StripHtml && decide (s.Elements = [])) := by
  unfold setting
  cases hE : s.Elements with
  | nil => simp
  | cons x xs => simp

/-! ## Properties of the attribute rewriter -/

/-- An attribute whose name is not in the attribute map is dropped. -/
theorem attrStep_dropped (lib : Lib) (s : sanitizer) (st : AttrState) (a : Attribute)
    (h : s.attributesMap a.Key = false) : attrStep lib s st a = st := by
  simp [attrStep, h]

/-- An attribute whose name is in the attribute map is appended under its
own name. -/
theorem attrStep_kept (lib : Lib) (s : sanitizer) (st : AttrState) (a : Attribute)
    (h : s.attributesMap a.Key = true) :
    ∃ b, (attrStep lib s st a).attrs = st.attrs ++ [b] ∧ b.Key = a.Key := by
  simp only [attrStep, h, if_true]
  exact ⟨_, rfl, rfl⟩

/-- The link flag is raised only by an `href` attribute of the attribute map. -/
theorem attrStep_is_link (lib : Lib) (s : sanitizer) (st : AttrState) (a : Attribute)
    (h : (attrStep lib s st a).is_link = true) :
    st.is_link = true ∨ s.attributesMap "href" = true := by
  by_cases hw : s.attributesMap a.Key = true
  · by_cases hk : a.Key = "href"
    · right; rw [← hk]; exact hw
    · left
      simp only [attrStep, hw, if_true, hk, if_false] at h
      exact h
  · left
    rw [attrStep_dropped lib s st a (by simpa using hw)] at h
    exact h

/-- The invariant of the loop of `sanitizeAttributes`: the collected names are
in the attribute map, and so is `href` once the link flag is raised. -/
theorem foldl_attrStep_keys (lib : Lib) (s : sanitizer) (attrs : List Attribute)
    (st : AttrState)
    (h1 : ∀ x ∈ st.attrs, s.attributesMap x.Key = true)
    (h2 : st.is_link = true → s.attributesMap "href" = true) :
    (∀ x ∈ (attrs.foldl (attrStep lib s) st).attrs, s.attributesMap x.Key = true) ∧
    ((attrs.foldl (attrStep lib s) st).is_link = true → s.attributesMap "href" = true) := by
  induction attrs generalizing st with
  | nil => exact ⟨h1, h2⟩
  | cons a rest ih =>
    rw [List.foldl_cons]
    apply ih
    · by_cases hw : s.attributesMap a.Key = true
      · obtain ⟨b, hb, hk⟩ := attrStep_kept lib s st a hw
        rw [hb]
        intro x hx
        rcases List.mem_append.mp hx with hx | hx
        · exact h1 x hx
        · rw [List.mem_singleton.mp hx, hk]; exact hw
      · rw [attrStep_dropped lib s st a (by simpa using hw)]
        exact h1
    · intro hl
      rcases attrStep_is_link lib s st a hl with h | h
      · exact h2 h
      · exact h

/-- The attributes after the loop of `sanitizeAttributes` are the collected
ones and, on a link, the appended `rel` and `target`. -/
theorem attrFinish_mem (s : sanitizer) (st : AttrState) (a : Attribute)
    (ha : a ∈ attrFinish s st) :
    a ∈ st.attrs ∨
    (st.is_link = true ∧ a = { Namespace := "", Key := "rel", Val := "nofollow" } ∧
      s.ForceRelNofollow = true) ∨
    (st.is_link = true ∧ a = { Namespace := "", Key := "target", Val := "_blank" } ∧
      s.ForceTargetBlank = true) := by
  unfold attrFinish at ha
  split_ifs at ha <;> simp_all <;> tauto

theorem setting_ForceRelNofollow (s : sanitizer) :
    (setting s).ForceRelNofollow = s.ForceRelNofollow := by
  unfold setting
  split_ifs <;> rfl

theorem setting_ForceTargetBlank (s : sanitizer) :
    (setting s).ForceTargetBlank = s.ForceTargetBlank := by
  unfold setting
  split_ifs <;> rfl

/-- The step of the loop on a whitelisted `href` with an internal value: the
attribute is kept as it is and the link is recorded as internal. -/
theorem attrStep_href_internal (lib : Lib) (s : sanitizer) (st : AttrState) (h : Attribute)
    (hw : s.attributesMap "href" = true) (hk : h.Key = "href")
    (hint : isInternalLink h.Val = true) :
    attrStep lib s st h =
      { attrs := st.attrs ++ [h], is_link := true, is_internal_link := true,
        no_target := st.no_target, no_rel := st.no_rel } := by
  have e1 : ("href" : String) ≠ "target" := by decide
  have e2 : ("href" : String) ≠ "rel" := by decide
  obtain ⟨ns, key, val⟩ := h
  simp only at hk hint
  subst hk
  simp [attrStep, hw, sanitizeLink_of_internal lib s val hint, hint, e1, e2]

/-- The step of the loop on an attribute other than `href` once the link is
recorded as internal: only the value of a `src` is rewritten. -/
theorem attrStep_after_internal (lib : Lib) (s : sanitizer) (st : AttrState) (a : Attribute)
    (hi : st.is_internal_link = true) (hk : a.Key ≠ "href") :
    attrStep lib s st a =
      { st with
        attrs := st.attrs ++ ([a].filter (fun x => s.attributesMap x.Key)).map (rewriteSrc lib s) }
      := by
  by_cases hw : s.attributesMap a.Key = true
  · obtain ⟨ns, key, val⟩ := a
    simp only at hk hw
    by_cases hsrc : key = "src"
    · subst hsrc
      simp [attrStep, rewriteSrc, hw, hi]
    · simp [attrStep, rewriteSrc, hw, hk, hi, hsrc]
  · have hw2 : s.attributesMap a.Key = false := by simpa using hw
    rw [attrStep_dropped lib s st a hw2]
    simp [hw2]

/-- The loop over attributes that hold no `href`, once the link is recorded as
internal. -/
theorem foldl_attrStep_after_internal (lib : Lib) (s : sanitizer) (post : List Attribute)
    (st : AttrState) (hi : st.is_internal_link = true) (hk : ∀ a ∈ post, a.Key ≠ "href") :
    post.foldl (attrStep lib s) st =
      { st with
        attrs := st.attrs ++ (post.filter (fun x => s.attributesMap x.Key)).map (rewriteSrc lib s) }
      := by
  induction post generalizing st with
  | nil => simp
  | cons a rest ih =>
    rw [List.foldl_cons, attrStep_after_internal lib s st a hi (hk a (List.mem_cons_self _ _)),
      ih]
    · have : a :: rest = [a] ++ rest := rfl
      rw [this, List.filter_append, List.map_append]
      simp only [List.append_assoc]
    · exact hi
    · exact fun x hx => hk x (List.mem_cons_of_mem _ hx)

/-! ## Claims on the token filter -/

/-- C1 (element whitelist exclusivity): when `Sanitize` succeeds and `StripHtml`
is off while the tokens are read, the returned string is the rendering of the
tokens written to the output buffer, and every start, self-closing or end tag
among them has a name that is in `Elements`. -/
theorem Sanitize_tags_in_Elements (lib : Lib) (s : sanitizer) (str out : String)
    (hok : (Sanitize lib s str).2 = (out, none)) (hstrip : (setting s).StripHtml = false) :
    ∃ st, tokenLoop lib (setting s) (lib.Tokenize (TrimSpace str)).err
        (lib.Tokenize (TrimSpace str)).tokens loopInit = Except.ok st ∧
      out = render lib st.buf ∧
      ∀ t ∈ st.buf, t.isTag = true → t.Data ∈ s.Elements := by
  obtain ⟨hv, he⟩ := Sanitize_ok_inv lib s str out hok
  refine ⟨_, by rw [he, tokenLoop_eof], ?_, ?_⟩
  · rw [Sanitize_eof lib s str hv he] at hok
    split_ifs at hok with h1 h2
    · simp at hok
    · rw [hstrip] at h2; simp at h2
    · exact ((Prod.mk.injEq _ _ _ _).mp hok).1.symm
  · have key := foldl_loopStep_invariant lib (setting s)
      (fun st => ∀ x ∈ st.buf, x.isTag = true → (setting s).elementsMap x.Data = true)
      (fun st t h => loopStep_buf_tags lib (setting s) st t h)
      (readTokens (lib.Tokenize (TrimSpace str)).tokens) loopInit
      (by intro x hx; simp [loopInit] at hx)
    intro t ht htag
    have := key t ht htag
    rw [setting_elementsMap] at this
    exact (slice2map_true _ _).mp this

/-- Witness of C1: the default configuration on `<p>default p</p>`. -/
theorem Sanitize_tags_in_Elements_witness :
    (Sanitize tableLib NewDefault "<p>default p</p>").2 = ("<p>default p</p>", none) ∧
    (setting NewDefault).StripHtml = false ∧
    ∃ st, tokenLoop tableLib (setting NewDefault)
        (tableLib.Tokenize (TrimSpace "<p>default p</p>")).err
        (tableLib.Tokenize (TrimSpace "<p>default p</p>")).tokens loopInit = Except.ok st ∧
      "<p>default p</p>" = render tableLib st.buf ∧
      ∀ t ∈ st.buf, t.isTag = true → t.Data ∈ NewDefault.Elements :=
  ⟨by decide, by decide,
    Sanitize_tags_in_Elements tableLib NewDefault "<p>default p</p>" "<p>default p</p>"
      (by decide) (by decide)⟩

/-- C3 at the input `<applet><p>hi</p></applet>` under the default
configuration, whose element list names none of `script`, `applet`, `style`:
the tags `p` that lie between the start tag `applet` and its end tag are
written to the output, and the call returns `<p></p>` without an error. -/
theorem Sanitize_applet_subtree_written :
    "script" ∉ NewDefault.Elements ∧ "applet" ∉ NewDefault.Elements ∧
    "style" ∉ NewDefault.Elements ∧
    (tableLib.Tokenize (TrimSpace "<applet><p>hi</p></applet>")).tokens =
      [startTag "applet" [], startTag "p" [], textToken "hi", endTag "p", endTag "applet"] ∧
    tokenLoop tableLib (setting NewDefault) none
        [startTag "applet" [], startTag "p" [], textToken "hi", endTag "p", endTag "applet"]
        loopInit =
      Except.ok { buf := [startTag "p" [], endTag "p"], strip := [], skip := 0,
                  startTags := 2, endTags := 2 } ∧
    (Sanitize tableLib NewDefault "<applet><p>hi</p></applet>").2 = ("<p></p>", none) := by
  refine ⟨by decide, by decide, by decide, by rfl, by rfl, by decide⟩

/-- C4 at the input `<script>alert(1);</script>` under a configuration whose
element list names `script`: the start tag, the text and the end tag are all
written to the output, and the call returns the input unchanged. -/
theorem Sanitize_script_whitelisted_written :
    scriptAllowed.Elements = ["script"] ∧
    tokenLoop tableLib (setting scriptAllowed) none
        [startTag "script" [], textToken "alert(1);", endTag "script"] loopInit =
      Except.ok { buf := [startTag "script" [], textToken "alert(1);", endTag "script"],
                  strip := [], skip := 0, startTags := 1, endTags := 1 } ∧
    (Sanitize tableLib scriptAllowed "<script>alert(1);</script>").2 =
      ("<script>alert(1);</script>", none) := by
  refine ⟨rfl, by rfl, by decide⟩

/-- C5 (balance enforcement): on a valid input whose tokenization stops at
the end of the input, a configuration with `EnsureInPairs` set returns the empty
string with the error `Tags pairs mismatch!` exactly when the number of start
tags that are not void elements differs from the number of end tags; with
`EnsureInPairs` unset that error is never returned. -/
theorem Sanitize_balance (lib : Lib) (s : sanitizer) (str : String)
    (hv : lib.ValidString str = true) (he : (lib.Tokenize (TrimSpace str)).err = none) :
    (s.EnsureInPairs = true →
      ((Sanitize lib s str).2 = ("", some "Tags pairs mismatch!") ↔
        countStartTags (readTokens (lib.Tokenize (TrimSpace str)).tokens) ≠
          countEndTags (readTokens (lib.Tokenize (TrimSpace str)).tokens))) ∧
    (s.EnsureInPairs = false → (Sanitize lib s str).2.2 ≠ some "Tags pairs mismatch!") := by
  have hc := foldl_loopStep_counters lib (setting s)
    (readTokens (lib.Tokenize (TrimSpace str)).tokens) loopInit
  rw [Sanitize_eof lib s str hv he, setting_EnsureInPairs, hc.1, hc.2]
  simp only [loopInit, Nat.zero_add]
  constructor
  · intro hp
    by_cases hne : countStartTags (readTokens (lib.Tokenize (TrimSpace str)).tokens) =
        countEndTags (readTokens (lib.Tokenize (TrimSpace str)).tokens)
    · simp only [hp, hne, ne_eq, not_true_eq_false, and_false, if_false, iff_false]
      split_ifs <;> simp
    · simp [hp, hne]
  · intro hp
    simp only [hp, Bool.false_eq_true, false_and, if_false]
    split_ifs <;> simp

/-- Witness of C5: the strict default configuration on the unbalanced input
`<pre>so what`. -/
theorem Sanitize_balance_witness :
    tableLib.ValidString "<pre>so what" = true ∧
    (tableLib.Tokenize (TrimSpace "<pre>so what")).err = none ∧
    (NewDefault.EnsureInPairs = true →
      ((Sanitize tableLib NewDefault "<pre>so what").2 = ("", some "Tags pairs mismatch!") ↔
        countStartTags (readTokens (tableLib.Tokenize (TrimSpace "<pre>so what")).tokens) ≠
          countEndTags (readTokens (tableLib.Tokenize (TrimSpace "<pre>so what")).tokens))) ∧
    (NewDefault.EnsureInPairs = false →
      (Sanitize tableLib NewDefault "<pre>so what").2.2 ≠ some "Tags pairs mismatch!") :=
  ⟨rfl, by decide, Sanitize_balance tableLib NewDefault "<pre>so what" rfl (by decide)⟩

/-- C6 at the input `</style>hello` under the strip-only configuration: the
text `hello` is nested in no `script`, `applet` or `style` element, yet the end
tag drives the skip counter to `-1`, the text is not written, and the call
returns the empty string. -/
theorem Sanitize_strip_stray_end_tag :
    (tableLib.Tokenize (TrimSpace "</style>hello")).tokens =
      [endTag "style", textToken "hello"] ∧
    render tableLib (textOutsideRemoved 0 [endTag "style", textToken "hello"]) = "hello" ∧
    tokenLoop tableLib (setting NewStrip) none [endTag "style", textToken "hello"] loopInit =
      Except.ok { buf := [], strip := [], skip := -1, startTags := 0, endTags := 1 } ∧
    (Sanitize tableLib NewStrip "</style>hello").2 = ("", none) := by
  refine ⟨by rfl, by decide, by rfl, by decide⟩

/-- C7 as stated fails: with `StripHtml` set and `Elements` naming `p`, the
call on `<p>default p</p>` returns the full output buffer, tags included, and
nothing has been written to the stripped-text buffer. -/
theorem Sanitize_strip_flag_counterexample :
    stripWithElements.StripHtml = true ∧
    (Sanitize tableLib stripWithElements "<p>default p</p>").2 = ("<p>default p</p>", none) ∧
    tokenLoop tableLib (setting stripWithElements)
        (tableLib.Tokenize (TrimSpace "<p>default p</p>")).err
        (tableLib.Tokenize (TrimSpace "<p>default p</p>")).tokens loopInit =
      Except.ok { buf := [startTag "p" [], textToken "default p", endTag "p"], strip := [],
                  skip := 0, startTags := 1, endTags := 1 } ∧
    render tableLib [startTag "p" [], textToken "default p", endTag "p"] = "<p>default p</p>" ∧
    render tableLib [] = "" := by
  refine ⟨rfl, by decide, by rfl, by decide, by decide⟩

/-- C7 amended: when `Sanitize` succeeds, the returned string is the
stripped-text buffer, which holds text tokens only, if `StripHtml` is set and
`Elements` is empty at the call; it is the full output buffer if `StripHtml` is
unset or `Elements` is not empty. -/
theorem Sanitize_strip_flag (lib : Lib) (s : sanitizer) (str out : String)
    (hok : (Sanitize lib s str).2 = (out, none)) :
    ∃ st, tokenLoop lib (setting s) (lib.Tokenize (TrimSpace str)).err
        (lib.Tokenize (TrimSpace str)).tokens loopInit = Except.ok st ∧
      (s.StripHtml = true ∧ s.Elements = [] →
        out = render lib st.strip ∧ ∀ t ∈ st.strip, t.Typ = TokenType.TextToken) ∧
      (s.StripHtml = false ∨ s.Elements ≠ [] → out = render lib st.buf) := by
  obtain ⟨hv, he⟩ := Sanitize_ok_inv lib s str out hok
  refine ⟨_, by rw [he, tokenLoop_eof], ?_, ?_⟩
  · rintro ⟨h1, h2⟩
    have hs : (setting s).StripHtml = true := by rw [setting_StripHtml]; simp [h1, h2]
    constructor
    · rw [Sanitize_eof lib s str hv he] at hok
      split_ifs at hok with h3
      · simp at hok
      · exact ((Prod.mk.injEq _ _ _ _).mp hok).1.symm
    · have key := foldl_loopStep_invariant lib (setting s)
        (fun st => ∀ x ∈ st.strip, x.Typ = TokenType.TextToken ∧ (setting s).StripHtml = true)
        (fun st t h => loopStep_strip lib (setting s) st t h)
        (readTokens (lib.Tokenize (TrimSpace str)).tokens) loopInit
        (by intro x hx; simp [loopInit] at hx)
      exact fun t ht => (key t ht).1
  · intro h
    have hs : (setting s).StripHtml = false := by
      rw [setting_StripHtml]
      rcases h with h | h
      · simp [h]
      · simp [h]
    rw [Sanitize_eof lib s str hv he] at hok
    split_ifs at hok with h3 h4
    · simp at hok
    · rw [hs] at h4; simp at h4
    · exact ((Prod.mk.injEq _ _ _ _).mp hok).1.symm

/-- Witness of C7 amended: the strip-only configuration on
`<html>html document</html>`. -/
theorem Sanitize_strip_flag_witness :
    (Sanitize tableLib NewStrip "<html>html document</html>").2 = ("html document", none) ∧
    ∃ st, tokenLoop tableLib (setting NewStrip)
        (tableLib.Tokenize (TrimSpace "<html>html document</html>")).err
        (tableLib.Tokenize (TrimSpace "<html>html document</html>")).tokens loopInit =
          Except.ok st ∧
      (NewStrip.StripHtml = true ∧ NewStrip.Elements = [] →
        "html document" = render tableLib st.strip ∧
          ∀ t ∈ st.strip, t.Typ = TokenType.TextToken) ∧
      (NewStrip.StripHtml = false ∨ NewStrip.Elements ≠ [] →
        "html document" = render tableLib st.buf) :=
  ⟨by decide,
    Sanitize_strip_flag tableLib NewStrip "<html>html document</html>" "html document"
      (by decide)⟩

/-! ## Claims on the attribute rewriter -/

/-- C2 as stated fails: under the configuration of `Test_Sanitize_TagsList`,
whose attribute list is `href`, `src`, the tag `a` with `href` equal to
`abc.com` comes out with a `rel` and a `target` attribute, from
`sanitizeAttributes` and in the output of `Sanitize`. -/
theorem sanitizeAttributes_whitelist_counterexample :
    (sanitizeAttributes tableLib (setting tagsListSanitizer)
        (startTag "a" [{ Namespace := "", Key := "href", Val := "abc.com" }])).Attr =
      [{ Namespace := "", Key := "href", Val := "http://abc.com" },
       { Namespace := "", Key := "rel", Val := "nofollow" },
       { Namespace := "", Key := "target", Val := "_blank" }] ∧
    "rel" ∉ tagsListSanitizer.Attributes ∧ "target" ∉ tagsListSanitizer.Attributes ∧
    (Sanitize tableLib tagsListSanitizer linkBare).2 = (linkHttpForced, none) := by
  decide

/-- Every attribute produced by `sanitizeAttributes` has a name in
`Attributes`, save for the two attributes the function appends to a tag with a
whitelisted `href`: `rel` with value `nofollow` under `ForceRelNofollow` and
`target` with value `_blank` under `ForceTargetBlank`. -/
theorem sanitizeAttributes_keys (lib : Lib) (s : sanitizer) (t : Token) (a : Attribute)
    (ha : a ∈ (sanitizeAttributes lib (setting s) t).Attr) :
    a.Key ∈ s.Attributes ∨
    ("href" ∈ s.Attributes ∧
      ((a = { Namespace := "", Key := "rel", Val := "nofollow" } ∧ s.ForceRelNofollow = true) ∨
       (a = { Namespace := "", Key := "target", Val := "_blank" } ∧
          s.ForceTargetBlank = true))) := by
  obtain ⟨hkeys, hlink⟩ := foldl_attrStep_keys lib (setting s) t.Attr attrInit
    (by intro x hx; simp [attrInit] at hx) (by simp [attrInit])
  rw [setting_attributesMap] at hlink
  have hin : ∀ x ∈ (t.Attr.foldl (attrStep lib (setting s)) attrInit).attrs,
      x.Key ∈ s.Attributes := by
    intro x hx
    have := hkeys x hx
    rw [setting_attributesMap] at this
    exact (slice2map_true _ _).mp this
  rcases attrFinish_mem (setting s) _ a ha with h | ⟨hl, h, hf⟩ | ⟨hl, h, hf⟩
  · exact Or.inl (hin a h)
  · rw [setting_ForceRelNofollow] at hf
    exact Or.inr ⟨(slice2map_true _ _).mp (hlink hl), Or.inl ⟨h, hf⟩⟩
  · rw [setting_ForceTargetBlank] at hf
    exact Or.inr ⟨(slice2map_true _ _).mp (hlink hl), Or.inr ⟨h, hf⟩⟩

/-- One step of the loop of `Sanitize` writes a start or self-closing tag only
as `sanitizeAttributes` returns it. -/
theorem loopStep_buf_sanitized (lib : Lib) (s : sanitizer) (st : LoopState) (t : Token)
    (h : ∀ x ∈ st.buf,
      x.Typ = TokenType.StartTagToken ∨ x.Typ = TokenType.SelfClosingTagToken →
        ∃ t0, x = sanitizeAttributes lib s t0) :
    ∀ x ∈ (loopStep lib s st t).buf,
      x.Typ = TokenType.StartTagToken ∨ x.Typ = TokenType.SelfClosingTagToken →
        ∃ t0, x = sanitizeAttributes lib s t0 := by
  intro x hx htyp
  unfold loopStep at hx
  split_ifs at hx with h1 h2 h3 h4 h5 h6 h7 h8 h9 h10 <;>
    first
      | exact h x hx htyp
      | (simp only [List.mem_append, List.mem_singleton] at hx
         rcases hx with hx | hx
         · exact h x hx htyp
         · first
             | exact ⟨t, hx⟩
             | (subst hx; exfalso; simp_all))

/-- One step of the loop of `Sanitize` writes an end tag only as it was read. -/
theorem loopStep_buf_end (lib : Lib) (s : sanitizer) (st : LoopState) (t : Token)
    (read : List Token) (ht : t ∈ read)
    (h : ∀ x ∈ st.buf, x.Typ = TokenType.EndTagToken → x ∈ read) :
    ∀ x ∈ (loopStep lib s st t).buf, x.Typ = TokenType.EndTagToken → x ∈ read := by
  intro x hx htyp
  unfold loopStep at hx
  split_ifs at hx with h1 h2 h3 h4 h5 h6 h7 h8 h9 h10 <;>
    first
      | exact h x hx htyp
      | (simp only [List.mem_append, List.mem_singleton] at hx
         rcases hx with hx | hx
         · exact h x hx htyp
         · first
             | (rw [hx]; exact ht)
             | (subst hx; exfalso; rw [sanitizeAttributes_Typ] at htyp; simp_all))

/-- C2 amended: every attribute produced by `sanitizeAttributes`, and hence
every attribute of a start or self-closing tag written to the output of
`Sanitize`, has a name in `Attributes`, save for the two attributes the
function appends to a tag with a whitelisted `href`: `rel` with value
`nofollow` under `ForceRelNofollow` and `target` with value `_blank` under
`ForceTargetBlank`; an end tag is written to the output as the tokenizer
returned it. -/
theorem sanitizeAttributes_whitelist (lib : Lib) (s : sanitizer) :
    (∀ t a, a ∈ (sanitizeAttributes lib (setting s) t).Attr →
      a.Key ∈ s.Attributes ∨
      ("href" ∈ s.Attributes ∧
        ((a = { Namespace := "", Key := "rel", Val := "nofollow" } ∧
            s.ForceRelNofollow = true) ∨
         (a = { Namespace := "", Key := "target", Val := "_blank" } ∧
            s.ForceTargetBlank = true)))) ∧
    (∀ str out, (Sanitize lib s str).2 = (out, none) → (setting s).StripHtml = false →
      ∃ st, tokenLoop lib (setting s) (lib.Tokenize (TrimSpace str)).err
          (lib.Tokenize (TrimSpace str)).tokens loopInit = Except.ok st ∧
        out = render lib st.buf ∧
        (∀ t ∈ st.buf,
          t.Typ = TokenType.StartTagToken ∨ t.Typ = TokenType.SelfClosingTagToken →
          ∀ a ∈ t.Attr,
            a.Key ∈ s.Attributes ∨
            ("href" ∈ s.Attributes ∧
              ((a = { Namespace := "", Key := "rel", Val := "nofollow" } ∧
                  s.ForceRelNofollow = true) ∨
               (a = { Namespace := "", Key := "target", Val := "_blank" } ∧
                  s.ForceTargetBlank = true)))) ∧
        ∀ t ∈ st.buf, t.Typ = TokenType.EndTagToken →
          t ∈ readTokens (lib.Tokenize (TrimSpace str)).tokens) := by
  refine ⟨fun t a ha => sanitizeAttributes_keys lib s t a ha, ?_⟩
  intro str out hok hstrip
  obtain ⟨hv, he⟩ := Sanitize_ok_inv lib s str out hok
  refine ⟨_, by rw [he, tokenLoop_eof], ?_, ?_, ?_⟩
  · rw [Sanitize_eof lib s str hv he] at hok
    split_ifs at hok with h1 h2
    · simp at hok
    · rw [hstrip] at h2; simp at h2
    · exact ((Prod.mk.injEq _ _ _ _).mp hok).1.symm
  · have key := foldl_loopStep_invariant lib (setting s)
      (fun st => ∀ x ∈ st.buf,
        x.Typ = TokenType.StartTagToken ∨ x.Typ = TokenType.SelfClosingTagToken →
          ∃ t0, x = sanitizeAttributes lib (setting s) t0)
      (fun st t h => loopStep_buf_sanitized lib (setting s) st t h)
      (readTokens (lib.Tokenize (TrimSpace str)).tokens) loopInit
      (by intro x hx; simp [loopInit] at hx)
    intro t ht htyp a ha
    obtain ⟨t0, h0⟩ := key t ht htyp
    rw [h0] at ha
    exact sanitizeAttributes_keys lib s t0 a ha
  · exact foldl_loopStep_invariant_mem lib (setting s)
      (fun st => ∀ x ∈ st.buf, x.Typ = TokenType.EndTagToken →
        x ∈ readTokens (lib.Tokenize (TrimSpace str)).tokens)
      (readTokens (lib.Tokenize (TrimSpace str)).tokens)
      (fun st t ht h => loopStep_buf_end lib (setting s) st t _ ht h)
      loopInit (by intro x hx; simp [loopInit] at hx)

/-- Witness of C2 amended: the `href` attribute of the tag of the
counterexample, and the configuration of `Test_Sanitize_TagsList` on the link
with `href` equal to `abc.com`, which comes out with `rel` and `target`
appended. -/
theorem sanitizeAttributes_whitelist_witness :
    (({ Namespace := "", Key := "href", Val := "http://abc.com" } : Attribute) ∈
      (sanitizeAttributes tableLib (setting tagsListSanitizer)
        (startTag "a" [{ Namespace := "", Key := "href", Val := "abc.com" }])).Attr ∧
    ("href" ∈ tagsListSanitizer.Attributes ∨
      ("href" ∈ tagsListSanitizer.Attributes ∧
        ((({ Namespace := "", Key := "href", Val := "http://abc.com" } : Attribute) =
            { Namespace := "", Key := "rel", Val := "nofollow" } ∧
          tagsListSanitizer.ForceRelNofollow = true) ∨
         (({ Namespace := "", Key := "href", Val := "http://abc.com" } : Attribute) =
            { Namespace := "", Key := "target", Val := "_blank" } ∧
          tagsListSanitizer.ForceTargetBlank = true))))) ∧
    ((Sanitize tableLib tagsListSanitizer linkBare).2 = (linkHttpForced, none) ∧
    (setting tagsListSanitizer).StripHtml = false ∧
    ∃ st, tokenLoop tableLib (setting tagsListSanitizer)
        (tableLib.Tokenize (TrimSpace linkBare)).err
        (tableLib.Tokenize (TrimSpace linkBare)).tokens loopInit = Except.ok st ∧
      linkHttpForced = render tableLib st.buf ∧
      (∀ t ∈ st.buf,
        t.Typ = TokenType.StartTagToken ∨ t.Typ = TokenType.SelfClosingTagToken →
        ∀ a ∈ t.Attr,
          a.Key ∈ tagsListSanitizer.Attributes ∨
          ("href" ∈ tagsListSanitizer.Attributes ∧
            ((a = { Namespace := "", Key := "rel", Val := "nofollow" } ∧
                tagsListSanitizer.ForceRelNofollow = true) ∨
             (a = { Namespace := "", Key := "target", Val := "_blank" } ∧
                tagsListSanitizer.ForceTargetBlank = true)))) ∧
      ∀ t ∈ st.buf, t.Typ = TokenType.EndTagToken →
        t ∈ readTokens (tableLib.Tokenize (TrimSpace linkBare)).tokens) :=
  ⟨⟨by decide,
    (sanitizeAttributes_whitelist tableLib tagsListSanitizer).1
      (startTag "a" [{ Namespace := "", Key := "href", Val := "abc.com" }])
      { Namespace := "", Key := "href", Val := "http://abc.com" } (by decide)⟩,
   ⟨by decide, by decide,
    (sanitizeAttributes_whitelist tableLib tagsListSanitizer).2 linkBare linkHttpForced
      (by decide) (by decide)⟩⟩

/-- What the loop of `sanitizeAttributes` does after a whitelisted `href` with
an internal value, when no other `href` follows: that `href` is kept as it is,
every whitelisted attribute after it is kept with the value it had in the input
(a `src` with the value `sanitizeLink` gives it), and no attribute is
appended. -/
theorem sanitizeAttributes_internal_href (lib : Lib) (s : sanitizer) (t : Token)
    (pre post : List Attribute) (h : Attribute)
    (ht : t.Attr = pre ++ h :: post) (hk : h.Key = "href") (hw : "href" ∈ s.Attributes)
    (hint : isInternalLink h.Val = true) (hpost : ∀ a ∈ post, a.Key ≠ "href") :
    (sanitizeAttributes lib (setting s) t).Attr =
      (pre.foldl (attrStep lib (setting s)) attrInit).attrs ++ h ::
        (post.filter (fun x => decide (x.Key ∈ s.Attributes))).map
          (rewriteSrc lib (setting s)) := by
  have hmap : (setting s).attributesMap "href" = true := by
    rw [setting_attributesMap]; exact (slice2map_true _ _).mpr hw
  have hfilter : (fun x : Attribute => (setting s).attributesMap x.Key) =
      (fun x : Attribute => decide (x.Key ∈ s.Attributes)) := by
    funext x
    rw [setting_attributesMap]
    by_cases hx : x.Key ∈ s.Attributes
    · simp [hx, (slice2map_true _ _).mpr hx]
    · simp [hx, (slice2map_false _ _).mpr hx]
  simp only [sanitizeAttributes, ht, List.foldl_append, List.foldl_cons]
  rw [attrStep_href_internal lib (setting s) _ h hmap hk hint,
    foldl_attrStep_after_internal lib (setting s) post _ rfl hpost, hfilter]
  simp [attrFinish]

/-- C8 at the tag `a` with `target` equal to `x` followed by `href` equal to
`/abc`, under the default configuration: the `href` is whitelisted and
internal, yet `target` is forced to `_blank`, because the loop reads
`is_internal_link` before the `href` has set it.  The same test forces `rel` on
the tag `img` with `src` equal to `/a.png` and `rel` equal to `x`, which holds
an internal `src` and no link at all. -/
theorem sanitizeAttributes_internal_link_forced :
    isInternalLink "/abc" = true ∧ "href" ∈ NewDefault.Attributes ∧
    (sanitizeAttributes tableLib (setting NewDefault)
        (startTag "a" [{ Namespace := "", Key := "target", Val := "x" },
                       { Namespace := "", Key := "href", Val := "/abc" }])).Attr =
      [{ Namespace := "", Key := "target", Val := "_blank" },
       { Namespace := "", Key := "href", Val := "/abc" }] ∧
    isInternalLink "/a.png" = true ∧ "src" ∈ srcRelSanitizer.Attributes ∧
    (sanitizeAttributes tableLib (setting srcRelSanitizer)
        (startTag "img" [{ Namespace := "", Key := "src", Val := "/a.png" },
                         { Namespace := "", Key := "rel", Val := "x" }])).Attr =
      [{ Namespace := "", Key := "src", Val := "/a.png" },
       { Namespace := "", Key := "rel", Val := "nofollow" }] := by
  decide

/-! ## Claims on the link policy -/

/-- C9 (internal-link predicate): `isInternalLink url` is true exactly when
`url` is `/`, or begins with `#`, or begins with `/` followed by a character
other than `/`; it is false for the empty string and for every string that
begins with `//`. -/
theorem isInternalLink_iff (url : String) (rest : List Char) :
    (isInternalLink url = true ↔
      url = "/" ∨ (∃ tl, url.data = '#' :: tl) ∨
        (∃ c tl, url.data = '/' :: c :: tl ∧ c ≠ '/')) ∧
    isInternalLink "" = false ∧
    isInternalLink ⟨'/' :: '/' :: rest⟩ = false := by
  refine ⟨?_, by decide, ?_⟩
  · obtain ⟨cs⟩ := url
    rw [isInternalLink_chars]
    constructor
    · rintro (h | h | h)
      · exact Or.inl (by rw [h])
      · exact Or.inr (Or.inl h)
      · exact Or.inr (Or.inr h)
    · rintro (h | h | h)
      · exact Or.inl (congrArg String.data h)
      · exact Or.inr (Or.inl h)
      · exact Or.inr (Or.inr h)
  · cases hb : isInternalLink ⟨'/' :: '/' :: rest⟩ with
    | false => rfl
    | true =>
      exfalso
      rcases (isInternalLink_chars _).mp hb with h | ⟨r, h⟩ | ⟨c, r, h, hne⟩
      · simp at h
      · simp at h
      · simp only [List.cons.injEq, true_and] at h
        exact hne h.1.symm

/-- C10 (internal links are returned unmodified): whatever the configuration,
`sanitizeLink` returns an internal link as it is. -/
theorem sanitizeLink_internal (lib : Lib) (s : sanitizer) (url : String)
    (h : isInternalLink url = true) : sanitizeLink lib s url = url :=
  sanitizeLink_of_internal lib s url h

/-- Witness of C10: the link `/abc` under the default configuration. -/
theorem sanitizeLink_internal_witness :
    isInternalLink "/abc" = true ∧ sanitizeLink tableLib NewDefault "/abc" = "/abc" :=
  ⟨by decide, sanitizeLink_internal tableLib NewDefault "/abc" (by decide)⟩

/-! ## Further properties of the link policy -/

theorem utf8BytesOf_append (a b : List Char) :
    utf8BytesOf (a ++ b) = utf8BytesOf a ++ utf8BytesOf b := by
  induction a with
  | nil => rfl
  | cons c cs ih => simp [utf8BytesOf, ih]

/-- The result of the loop of `forceHttpScheme` when some scheme of the list
starts the link. -/
theorem forceHttpSchemeLoop_matched (l : String) (schemes : List String)
    (h : ∃ sch ∈ schemes, HasPrefix l sch = true) : forceHttpSchemeLoop l schemes = l := by
  induction schemes with
  | nil => simp at h
  | cons x xs ih =>
    unfold forceHttpSchemeLoop
    by_cases hx : HasPrefix l x = true
    · rw [if_pos hx]
    · rw [if_neg hx]
      apply ih
      obtain ⟨sch, hmem, hp⟩ := h
      rcases List.mem_cons.mp hmem with he | he
      · subst he; exact absurd hp hx
      · exact ⟨sch, he, hp⟩

/-- The result of the loop of `forceHttpScheme` when no scheme of the list
starts the link. -/
theorem forceHttpSchemeLoop_unmatched (l : String) (schemes : List String)
    (h : ∀ sch ∈ schemes, HasPrefix l sch = false) :
    forceHttpSchemeLoop l schemes = "http://" ++ l := by
  induction schemes with
  | nil => rfl
  | cons x xs ih =>
    unfold forceHttpSchemeLoop
    rw [if_neg (by rw [h x (List.mem_cons_self _ _)]; simp)]
    exact ih (fun sch hs => h sch (List.mem_cons_of_mem _ hs))

/-- The loop of `forceHttpScheme` returns the link or the link after
`http://`. -/
theorem forceHttpSchemeLoop_cases (l : String) (schemes : List String) :
    forceHttpSchemeLoop l schemes = l ∨ forceHttpSchemeLoop l schemes = "http://" ++ l := by
  by_cases h : ∃ sch ∈ schemes, HasPrefix l sch = true
  · exact Or.inl (forceHttpSchemeLoop_matched l schemes h)
  · right
    apply forceHttpSchemeLoop_unmatched
    intro sch hs
    cases hp : HasPrefix l sch with
    | false => rfl
    | true => exact absurd ⟨sch, hs, hp⟩ h

/-- The branch of `sanitizeLink` taken under `ForceHrefLink` by a link that is
neither blank nor internal. -/
theorem sanitizeLink_forced (lib : Lib) (s : sanitizer) (url : String)
    (hf : s.ForceHrefLink = true) (hb : TrimSpace url ≠ "") (hi : isInternalLink url = false) :
    sanitizeLink lib s url = forceHttpScheme s url := by
  unfold sanitizeLink
  rw [if_neg hb, hi, hf]
  simp

theorem setting_ForceHrefLink (s : sanitizer) : (setting s).ForceHrefLink = s.ForceHrefLink := by
  unfold setting
  split_ifs <;> rfl

theorem setting_URISchemes (s : sanitizer) : (setting s).URISchemes = s.URISchemes := by
  unfold setting
  split_ifs <;> rfl

theorem setting_uriSchemesMap (s : sanitizer) :
    (setting s).uriSchemesMap = slice2map s.URISchemes := by
  unfold setting
  split_ifs <;> rfl

/-! ## Claims on the link policy, continued -/

/-- C11 (scheme forcing): with `ForceHrefLink` set, a link that is neither blank
nor internal is returned as it is when it starts with one of the strings of
`URISchemes`, and is returned after `http://` otherwise. -/
theorem sanitizeLink_force_scheme (lib : Lib) (s : sanitizer) (url : String)
    (hf : s.ForceHrefLink = true) (hb : TrimSpace url ≠ "") (hi : isInternalLink url = false) :
    ((∃ sch ∈ s.URISchemes, HasPrefix url sch = true) → sanitizeLink lib s url = url) ∧
    ((∀ sch ∈ s.URISchemes, HasPrefix url sch = false) →
      sanitizeLink lib s url = "http://" ++ url) := by
  rw [sanitizeLink_forced lib s url hf hb hi]
  exact ⟨fun h => forceHttpSchemeLoop_matched url _ h,
    fun h => forceHttpSchemeLoop_unmatched url _ h⟩

/-- Witness of C11: the link `abc.com` under the configuration of
`Test_Sanitize_TagsList`. -/
theorem sanitizeLink_force_scheme_witness :
    tagsListSanitizer.ForceHrefLink = true ∧ TrimSpace "abc.com" ≠ "" ∧
    isInternalLink "abc.com" = false ∧
    ((∃ sch ∈ tagsListSanitizer.URISchemes, HasPrefix "abc.com" sch = true) →
      sanitizeLink tableLib tagsListSanitizer "abc.com" = "abc.com") ∧
    ((∀ sch ∈ tagsListSanitizer.URISchemes, HasPrefix "abc.com" sch = false) →
      sanitizeLink tableLib tagsListSanitizer "abc.com" = "http://" ++ "abc.com") :=
  ⟨rfl, by decide, by decide,
    sanitizeLink_force_scheme tableLib tagsListSanitizer "abc.com" rfl (by decide) (by decide)⟩

theorem TrimSpace_empty : TrimSpace "" = "" := by decide

theorem http_append_ne_empty (l : String) : "http://" ++ l ≠ "" := by
  intro h
  have hd := congrArg String.data h
  rw [String.data_append] at hd
  simp at hd

/-- Under `ForceHrefLink` a link that is not blank is not rewritten to the
empty string. -/
theorem sanitizeLink_forced_ne_empty (lib : Lib) (s : sanitizer) (l : String)
    (hf : s.ForceHrefLink = true) (hb : TrimSpace l ≠ "") : sanitizeLink lib s l ≠ "" := by
  have hl : l ≠ "" := by
    intro h
    rw [h] at hb
    exact hb TrimSpace_empty
  cases hi : isInternalLink l with
  | true => rw [sanitizeLink_of_internal lib s l hi]; exact hl
  | false =>
    rw [sanitizeLink_forced lib s l hf hb hi]
    rcases forceHttpSchemeLoop_cases l s.URISchemes with h | h
    · unfold forceHttpScheme; rw [h]; exact hl
    · unfold forceHttpScheme; rw [h]; exact http_append_ne_empty l

/-- The attribute that one step of the loop of `sanitizeAttributes` appends
for a whitelisted `href`. -/
theorem attrStep_href (lib : Lib) (s : sanitizer) (st : AttrState) (a : Attribute)
    (hw : s.attributesMap a.Key = true) (hk : a.Key = "href") :
    (attrStep lib s st a).attrs = st.attrs ++ [{ a with Val := sanitizeLink lib s a.Val }] := by
  have e1 : ("href" : String) ≠ "target" := by decide
  have e2 : ("href" : String) ≠ "rel" := by decide
  obtain ⟨ns, key, val⟩ := a
  simp only at hk hw
  subst hk
  simp [attrStep, hw, e1, e2]

/-- The invariant of the loop of `sanitizeAttributes` under `ForceHrefLink`:
no collected `href` is empty when no `href` of the input is blank. -/
theorem foldl_attrStep_href_ne_empty (lib : Lib) (s : sanitizer) (hf : s.ForceHrefLink = true)
    (attrs : List Attribute) (st : AttrState)
    (hin : ∀ a ∈ attrs, a.Key = "href" → TrimSpace a.Val ≠ "")
    (hst : ∀ b ∈ st.attrs, b.Key = "href" → b.Val ≠ "") :
    ∀ b ∈ (attrs.foldl (attrStep lib s) st).attrs, b.Key = "href" → b.Val ≠ "" := by
  induction attrs generalizing st with
  | nil => exact hst
  | cons a rest ih =>
    rw [List.foldl_cons]
    apply ih
    · exact fun x hx => hin x (List.mem_cons_of_mem _ hx)
    · by_cases hw : s.attributesMap a.Key = true
      · by_cases hk : a.Key = "href"
        · rw [attrStep_href lib s st a hw hk]
          intro b hb hbk
          rcases List.mem_append.mp hb with hb | hb
          · exact hst b hb hbk
          · rw [List.mem_singleton.mp hb]
            exact sanitizeLink_forced_ne_empty lib s a.Val hf
              (hin a (List.mem_cons_self _ _) hk)
        · obtain ⟨b0, hb0, hk0⟩ := attrStep_kept lib s st a hw
          rw [hb0]
          intro b hb hbk
          rcases List.mem_append.mp hb with hb | hb
          · exact hst b hb hbk
          · rw [List.mem_singleton.mp hb, hk0] at hbk
            exact absurd hbk hk
      · rw [attrStep_dropped lib s st a (by simpa using hw)]
        exact hst

/-- C12 as stated fails: under the default configuration, which sets
`ForceHrefLink` and whitelists `href`, the tag `a` with an empty `href` keeps
the empty `href`. -/
theorem sanitizeAttributes_href_empty_counterexample :
    NewDefault.ForceHrefLink = true ∧ "href" ∈ NewDefault.Attributes ∧
    (sanitizeAttributes tableLib (setting NewDefault)
        (startTag "a" [{ Namespace := "", Key := "href", Val := "" }])).Attr =
      [{ Namespace := "", Key := "href", Val := "" },
       { Namespace := "", Key := "rel", Val := "nofollow" },
       { Namespace := "", Key := "target", Val := "_blank" }] := by
  decide

/-- C12 amended: with `ForceHrefLink` set, when no `href` of the tag is blank
(empty or all white space), no `href` in the result of `sanitizeAttributes` is
the empty string. -/
theorem sanitizeAttributes_href_ne_empty (lib : Lib) (s : sanitizer) (t : Token)
    (hf : s.ForceHrefLink = true)
    (hin : ∀ a ∈ t.Attr, a.Key = "href" → TrimSpace a.Val ≠ "") :
    ∀ b ∈ (sanitizeAttributes lib (setting s) t).Attr, b.Key = "href" → b.Val ≠ "" := by
  intro b hb hk
  have hf2 : (setting s).ForceHrefLink = true := by rw [setting_ForceHrefLink]; exact hf
  have key := foldl_attrStep_href_ne_empty lib (setting s) hf2 t.Attr attrInit hin
    (by intro x hx; simp [attrInit] at hx)
  rcases attrFinish_mem (setting s) _ b hb with h | ⟨_, h, _⟩ | ⟨_, h, _⟩
  · exact key b h hk
  · rw [h] at hk; exact absurd hk (by decide)
  · rw [h] at hk; exact absurd hk (by decide)

/-- Witness of C12 amended: the tag `a` with `href` equal to `abc.com` under
the configuration of `Test_Sanitize_TagsList`. -/
theorem sanitizeAttributes_href_ne_empty_witness :
    tagsListSanitizer.ForceHrefLink = true ∧
    (∀ a ∈ (startTag "a" [{ Namespace := "", Key := "href", Val := "abc.com" }]).Attr,
      a.Key = "href" → TrimSpace a.Val ≠ "") ∧
    ∀ b ∈ (sanitizeAttributes tableLib (setting tagsListSanitizer)
        (startTag "a" [{ Namespace := "", Key := "href", Val := "abc.com" }])).Attr,
      b.Key = "href" → b.Val ≠ "" :=
  ⟨rfl, by decide,
    sanitizeAttributes_href_ne_empty tableLib tagsListSanitizer
      (startTag "a" [{ Namespace := "", Key := "href", Val := "abc.com" }]) rfl (by decide)⟩

/-- C13 at the link `javascript:alert(1);` under a configuration with the
default scheme list and `ForceHrefLink` unset: the link is neither blank nor
internal, its scheme `javascript` is not in `URISchemes`, and `sanitizeLink`
returns it, while the link `http://example.com/`, whose scheme is in
`URISchemes`, is rewritten to the empty string. -/
theorem sanitizeLink_unlisted_scheme_returned :
    parseSanitizer.ForceHrefLink = false ∧
    isInternalLink "javascript:alert(1);" = false ∧
    parseLib.UrlParse "javascript:alert(1);" = some ("javascript", "javascript:alert(1);") ∧
    "javascript" ∉ parseSanitizer.URISchemes ∧
    sanitizeLink parseLib (setting parseSanitizer) "javascript:alert(1);" =
      "javascript:alert(1);" ∧
    "http" ∈ parseSanitizer.URISchemes ∧
    sanitizeLink parseLib (setting parseSanitizer) "http://example.com/" = "" := by
  decide

/-- C14 (non-forced link mode): with `ForceHrefLink` unset, a link that is
neither blank nor internal is rewritten to the empty string when it fails to
parse or when the scheme of the parsed URL is in `URISchemes`, and to the string
of the parsed URL otherwise. -/
theorem sanitizeLink_not_forced (lib : Lib) (s : sanitizer) (url : String)
    (hf : s.ForceHrefLink = false) (hb : TrimSpace url ≠ "") (hi : isInternalLink url = false) :
    (lib.UrlParse url = none → sanitizeLink lib (setting s) url = "") ∧
    (∀ scheme str, lib.UrlParse url = some (scheme, str) →
      (scheme ∈ s.URISchemes → sanitizeLink lib (setting s) url = "") ∧
      (scheme ∉ s.URISchemes → sanitizeLink lib (setting s) url = str)) := by
  have hf2 : (setting s).ForceHrefLink = false := by rw [setting_ForceHrefLink]; exact hf
  unfold sanitizeLink
  rw [if_neg hb, hi, hf2, setting_uriSchemesMap]
  refine ⟨fun h => by simp [h], fun scheme str h => ⟨fun hm => ?_, fun hm => ?_⟩⟩
  · simp [h, (slice2map_true _ _).mpr hm]
  · simp [h, (slice2map_false _ _).mpr hm]

/-- Witness of C14: the link `javascript:alert(1);` under a configuration with
the default scheme list and `ForceHrefLink` unset. -/
theorem sanitizeLink_not_forced_witness :
    parseSanitizer.ForceHrefLink = false ∧ TrimSpace "javascript:alert(1);" ≠ "" ∧
    isInternalLink "javascript:alert(1);" = false ∧
    (parseLib.UrlParse "javascript:alert(1);" = none →
      sanitizeLink parseLib (setting parseSanitizer) "javascript:alert(1);" = "") ∧
    (∀ scheme str, parseLib.UrlParse "javascript:alert(1);" = some (scheme, str) →
      (scheme ∈ parseSanitizer.URISchemes →
        sanitizeLink parseLib (setting parseSanitizer) "javascript:alert(1);" = "") ∧
      (scheme ∉ parseSanitizer.URISchemes →
        sanitizeLink parseLib (setting parseSanitizer) "javascript:alert(1);" = str)) :=
  ⟨rfl, by decide, by decide,
    sanitizeLink_not_forced parseLib parseSanitizer "javascript:alert(1);" rfl (by decide)
      (by decide)⟩

/-! ## Further properties of the attribute rewriter -/

/-- The link flag, once raised, stays raised. -/
theorem attrStep_is_link_mono (lib : Lib) (s : sanitizer) (st : AttrState) (a : Attribute)
    (h : st.is_link = true) : (attrStep lib s st a).is_link = true := by
  by_cases hw : s.attributesMap a.Key = true
  · simp only [attrStep, hw, if_true]
    split_ifs <;> simp [h]
  · rw [attrStep_dropped lib s st a (by simpa using hw)]; exact h

theorem foldl_attrStep_is_link_mono (lib : Lib) (s : sanitizer) (attrs : List Attribute)
    (st : AttrState) (h : st.is_link = true) :
    (attrs.foldl (attrStep lib s) st).is_link = true := by
  induction attrs generalizing st with
  | nil => exact h
  | cons a rest ih => exact ih _ (attrStep_is_link_mono lib s st a h)

/-- A whitelisted `href` among the attributes raises the link flag. -/
theorem foldl_attrStep_is_link (lib : Lib) (s : sanitizer) (attrs : List Attribute)
    (st : AttrState) (hw : s.attributesMap "href" = true)
    (h : ∃ a ∈ attrs, a.Key = "href") :
    (attrs.foldl (attrStep lib s) st).is_link = true := by
  induction attrs generalizing st with
  | nil => simp at h
  | cons a rest ih =>
    rw [List.foldl_cons]
    by_cases hk : a.Key = "href"
    · apply foldl_attrStep_is_link_mono
      simp [attrStep, hk, hw]
    · apply ih
      obtain ⟨x, hx, hxk⟩ := h
      rcases List.mem_cons.mp hx with he | he
      · subst he; exact absurd hxk hk
      · exact ⟨x, he, hxk⟩

/-- One step of the loop of `sanitizeAttributes` on a tag whose links are all
external, with both forcing flags set: the link stays external, every collected
`rel` and `target` has the forced value, and a lowered `no_rel` or `no_target`
flag has its attribute in the list. -/
theorem attrStep_external (lib : Lib) (s : sanitizer) (st : AttrState) (a : Attribute)
    (hr : s.ForceRelNofollow = true) (ht : s.ForceTargetBlank = true)
    (hext : a.Key = "href" → isInternalLink (sanitizeLink lib s a.Val) = false)
    (h1 : st.is_internal_link = false)
    (h2 : ∀ b ∈ st.attrs, b.Key = "rel" → b.Val = "nofollow")
    (h3 : ∀ b ∈ st.attrs, b.Key = "target" → b.Val = "_blank")
    (h4 : st.no_rel = false → ∃ b ∈ st.attrs, b.Key = "rel")
    (h5 : st.no_target = false → ∃ b ∈ st.attrs, b.Key = "target") :
    (attrStep lib s st a).is_internal_link = false ∧
    (∀ b ∈ (attrStep lib s st a).attrs, b.Key = "rel" → b.Val = "nofollow") ∧
    (∀ b ∈ (attrStep lib s st a).attrs, b.Key = "target" → b.Val = "_blank") ∧
    ((attrStep lib s st a).no_rel = false → ∃ b ∈ (attrStep lib s st a).attrs, b.Key = "rel") ∧
    ((attrStep lib s st a).no_target = false →
      ∃ b ∈ (attrStep lib s st a).attrs, b.Key = "target") := by
  have e1 : ("href" : String) ≠ "target" := by decide
  have e2 : ("href" : String) ≠ "rel" := by decide
  have e3 : ("target" : String) ≠ "rel" := by decide
  have e4 : ("target" : String) ≠ "href" := by decide
  have e5 : ("rel" : String) ≠ "href" := by decide
  have e6 : ("rel" : String) ≠ "target" := by decide
  have e7 : ("target" : String) ≠ "src" := by decide
  have e8 : ("rel" : String) ≠ "src" := by decide
  by_cases hw : s.attributesMap a.Key = true
  · obtain ⟨ns, key, val⟩ := a
    simp only at hw hext
    by_cases k1 : key = "href"
    · subst k1
      have hx := hext rfl
      simp only [attrStep, hw, hx, e1, e2, if_true, true_or, false_and, decide_False,
        Bool.false_eq_true, if_false]
      refine ⟨trivial, ?_, ?_, ?_, ?_⟩
      · intro b hb hk
        rcases List.mem_append.mp hb with hb | hb
        · exact h2 b hb hk
        · rw [List.mem_singleton.mp hb] at hk; exact absurd hk e2
      · intro b hb hk
        rcases List.mem_append.mp hb with hb | hb
        · exact h3 b hb hk
        · rw [List.mem_singleton.mp hb] at hk; exact absurd hk e1
      · intro h
        obtain ⟨b, hb, hk⟩ := h4 h
        exact ⟨b, List.mem_append.mpr (Or.inl hb), hk⟩
      · intro h
        obtain ⟨b, hb, hk⟩ := h5 h
        exact ⟨b, List.mem_append.mpr (Or.inl hb), hk⟩
    · by_cases k2 : key = "target"
      · subst k2
        simp only [attrStep, hw, h1, ht, e3, e4, e7, or_self, and_self, decide_True, if_true,
          if_false, false_and, decide_False, Bool.false_eq_true]
        refine ⟨trivial, ?_, ?_, ?_, ?_⟩
        · intro b hb hk
          rcases List.mem_append.mp hb with hb | hb
          · exact h2 b hb hk
          · rw [List.mem_singleton.mp hb] at hk; exact absurd hk e3
        · intro b hb _
          rcases List.mem_append.mp hb with hb | hb
          · exact h3 b hb ‹_›
          · rw [List.mem_singleton.mp hb]
        · intro h
          obtain ⟨b, hb, hk⟩ := h4 h
          exact ⟨b, List.mem_append.mpr (Or.inl hb), hk⟩
        · intro _
          exact ⟨_, List.mem_append.mpr (Or.inr (List.mem_singleton.mpr rfl)), rfl⟩
      · by_cases k3 : key = "rel"
        · subst k3
          simp only [attrStep, hw, h1, hr, e5, e6, e8, or_self, and_self, decide_True, if_true,
            if_false, false_and, decide_False, Bool.false_eq_true]
          refine ⟨trivial, ?_, ?_, ?_, ?_⟩
          · intro b hb _
            rcases List.mem_append.mp hb with hb | hb
            · exact h2 b hb ‹_›
            · rw [List.mem_singleton.mp hb]
          · intro b hb hk
            rcases List.mem_append.mp hb with hb | hb
            · exact h3 b hb hk
            · rw [List.mem_singleton.mp hb] at hk; exact absurd hk e6
          · intro _
            exact ⟨_, List.mem_append.mpr (Or.inr (List.mem_singleton.mpr rfl)), rfl⟩
          · intro h
            obtain ⟨b, hb, hk⟩ := h5 h
            exact ⟨b, List.mem_append.mpr (Or.inl hb), hk⟩
        · simp only [attrStep, hw, k1, k2, k3, if_true, if_false, false_and, decide_False,
            Bool.false_eq_true]
          refine ⟨h1, ?_, ?_, ?_, ?_⟩
          · intro b hb hk
            rcases List.mem_append.mp hb with hb | hb
            · exact h2 b hb hk
            · rw [List.mem_singleton.mp hb] at hk; exact absurd hk k3
          · intro b hb hk
            rcases List.mem_append.mp hb with hb | hb
            · exact h3 b hb hk
            · rw [List.mem_singleton.mp hb] at hk; exact absurd hk k2
          · intro h
            obtain ⟨b, hb, hk⟩ := h4 h
            exact ⟨b, List.mem_append.mpr (Or.inl hb), hk⟩
          · intro h
            obtain ⟨b, hb, hk⟩ := h5 h
            exact ⟨b, List.mem_append.mpr (Or.inl hb), hk⟩
  · rw [attrStep_dropped lib s st a (by simpa using hw)]
    exact ⟨h1, h2, h3, h4, h5⟩

/-- The loop of `sanitizeAttributes` on a tag whose links are all external,
with both forcing flags set. -/
theorem foldl_attrStep_external (lib : Lib) (s : sanitizer)
    (hr : s.ForceRelNofollow = true) (ht : s.ForceTargetBlank = true)
    (attrs : List Attribute) (st : AttrState)
    (hext : ∀ a ∈ attrs, a.Key = "href" → isInternalLink (sanitizeLink lib s a.Val) = false)
    (h1 : st.is_internal_link = false)
    (h2 : ∀ b ∈ st.attrs, b.Key = "rel" → b.Val = "nofollow")
    (h3 : ∀ b ∈ st.attrs, b.Key = "target" → b.Val = "_blank")
    (h4 : st.no_rel = false → ∃ b ∈ st.attrs, b.Key = "rel")
    (h5 : st.no_target = false → ∃ b ∈ st.attrs, b.Key = "target") :
    (attrs.foldl (attrStep lib s) st).is_internal_link = false ∧
    (∀ b ∈ (attrs.foldl (attrStep lib s) st).attrs, b.Key = "rel" → b.Val = "nofollow") ∧
    (∀ b ∈ (attrs.foldl (attrStep lib s) st).attrs, b.Key = "target" → b.Val = "_blank") ∧
    ((attrs.foldl (attrStep lib s) st).no_rel = false →
      ∃ b ∈ (attrs.foldl (attrStep lib s) st).attrs, b.Key = "rel") ∧
    ((attrs.foldl (attrStep lib s) st).no_target = false →
      ∃ b ∈ (attrs.foldl (attrStep lib s) st).attrs, b.Key = "target") := by
  induction attrs generalizing st with
  | nil => exact ⟨h1, h2, h3, h4, h5⟩
  | cons a rest ih =>
    rw [List.foldl_cons]
    obtain ⟨g1, g2, g3, g4, g5⟩ := attrStep_external lib s st a hr ht
      (hext a (List.mem_cons_self _ _)) h1 h2 h3 h4 h5
    exact ih _ (fun x hx => hext x (List.mem_cons_of_mem _ hx)) g1 g2 g3 g4 g5

/-- The attributes after the loop of `sanitizeAttributes` on an external link,
with both forcing flags set. -/
theorem attrFinish_external (s : sanitizer) (st : AttrState)
    (hr : s.ForceRelNofollow = true) (ht : s.ForceTargetBlank = true)
    (hl : st.is_link = true) (hi : st.is_internal_link = false) :
    attrFinish s st =
      st.attrs ++ (if st.no_rel = true then [relNofollow] else []) ++
        (if st.no_target = true then [targetBlank] else []) := by
  unfold attrFinish
  cases h1 : st.no_rel <;> cases h2 : st.no_target <;>
    simp [hl, hi, hr, ht, relNofollow, targetBlank]

/-! ## Claims on the attribute rewriter, continued -/

/-- C15 (external links are forced): with `ForceRelNofollow` and
`ForceTargetBlank` set, when a tag has exactly one `href`, that `href` is
whitelisted and its rewritten value is not internal, the result of
`sanitizeAttributes` holds a `rel` and a `target`, every `rel` in it has the
value `nofollow` and every `target` the value `_blank`. -/
theorem sanitizeAttributes_external_forced (lib : Lib) (s : sanitizer) (t : Token)
    (hr : s.ForceRelNofollow = true) (ht : s.ForceTargetBlank = true)
    (hone : t.Attr.countP (fun a => decide (a.Key = "href")) = 1)
    (hw : "href" ∈ s.Attributes)
    (hext : ∀ a ∈ t.Attr, a.Key = "href" →
      isInternalLink (sanitizeLink lib (setting s) a.Val) = false) :
    (∃ b ∈ (sanitizeAttributes lib (setting s) t).Attr, b.Key = "rel") ∧
    (∃ b ∈ (sanitizeAttributes lib (setting s) t).Attr, b.Key = "target") ∧
    (∀ b ∈ (sanitizeAttributes lib (setting s) t).Attr, b.Key = "rel" → b.Val = "nofollow") ∧
    (∀ b ∈ (sanitizeAttributes lib (setting s) t).Attr, b.Key = "target" →
      b.Val = "_blank") := by
  have hr2 : (setting s).ForceRelNofollow = true := by rw [setting_ForceRelNofollow]; exact hr
  have ht2 : (setting s).ForceTargetBlank = true := by rw [setting_ForceTargetBlank]; exact ht
  have hmap : (setting s).attributesMap "href" = true := by
    rw [setting_attributesMap]; exact (slice2map_true _ _).mpr hw
  have hex : ∃ a ∈ t.Attr, a.Key = "href" := by
    have hpos : 0 < t.Attr.countP (fun a => decide (a.Key = "href")) := by omega
    obtain ⟨a, ha, hk⟩ := List.countP_pos_iff.mp hpos
    exact ⟨a, ha, by simpa using hk⟩
  have hlink := foldl_attrStep_is_link lib (setting s) t.Attr attrInit hmap hex
  obtain ⟨g1, g2, g3, g4, g5⟩ := foldl_attrStep_external lib (setting s) hr2 ht2 t.Attr attrInit
    hext rfl (by intro b hb; simp [attrInit] at hb) (by intro b hb; simp [attrInit] at hb)
    (by simp [attrInit]) (by simp [attrInit])
  have hfin := attrFinish_external (setting s) _ hr2 ht2 hlink g1
  simp only [sanitizeAttributes]
  rw [hfin]
  refine ⟨?_, ?_, ?_, ?_⟩
  · cases h : (t.Attr.foldl (attrStep lib (setting s)) attrInit).no_rel with
    | true => exact ⟨relNofollow, by simp, rfl⟩
    | false =>
      obtain ⟨b, hb, hk⟩ := g4 h
      exact ⟨b, by simp [hb], hk⟩
  · cases h : (t.Attr.foldl (attrStep lib (setting s)) attrInit).no_target with
    | true => exact ⟨targetBlank, by simp, rfl⟩
    | false =>
      obtain ⟨b, hb, hk⟩ := g5 h
      exact ⟨b, by simp [hb], hk⟩
  · intro b hb hk
    simp only [List.mem_append] at hb
    rcases hb with (hb | hb) | hb
    · exact g2 b hb hk
    · split_ifs at hb
      · rw [List.mem_singleton.mp hb]; rfl
      · simp at hb
    · split_ifs at hb
      · rw [List.mem_singleton.mp hb] at hk; exact absurd hk (by decide)
      · simp at hb
  · intro b hb hk
    simp only [List.mem_append] at hb
    rcases hb with (hb | hb) | hb
    · exact g3 b hb hk
    · split_ifs at hb
      · rw [List.mem_singleton.mp hb] at hk; exact absurd hk (by decide)
      · simp at hb
    · split_ifs at hb
      · rw [List.mem_singleton.mp hb]; rfl
      · simp at hb

/-- Witness of C15: the tag `a` with `href` equal to `abc.com` and `target`
equal to `default` under the configuration of `Test_Sanitize_TagsList`. -/
theorem sanitizeAttributes_external_forced_witness :
    tagsListSanitizer.ForceRelNofollow = true ∧ tagsListSanitizer.ForceTargetBlank = true ∧
    (startTag "a" [{ Namespace := "", Key := "href", Val := "abc.com" },
                   { Namespace := "", Key := "target", Val := "default" }]).Attr.countP
      (fun a => decide (a.Key = "href")) = 1 ∧
    "href" ∈ tagsListSanitizer.Attributes ∧
    (∃ b ∈ (sanitizeAttributes tableLib (setting tagsListSanitizer)
        (startTag "a" [{ Namespace := "", Key := "href", Val := "abc.com" },
                       { Namespace := "", Key := "target", Val := "default" }])).Attr,
      b.Key = "rel") ∧
    (∃ b ∈ (sanitizeAttributes tableLib (setting tagsListSanitizer)
        (startTag "a" [{ Namespace := "", Key := "href", Val := "abc.com" },
                       { Namespace := "", Key := "target", Val := "default" }])).Attr,
      b.Key = "target") ∧
    (∀ b ∈ (sanitizeAttributes tableLib (setting tagsListSanitizer)
        (startTag "a" [{ Namespace := "", Key := "href", Val := "abc.com" },
                       { Namespace := "", Key := "target", Val := "default" }])).Attr,
      b.Key = "rel" → b.Val = "nofollow") ∧
    (∀ b ∈ (sanitizeAttributes tableLib (setting tagsListSanitizer)
        (startTag "a" [{ Namespace := "", Key := "href", Val := "abc.com" },
                       { Namespace := "", Key := "target", Val := "default" }])).Attr,
      b.Key = "target" → b.Val = "_blank") :=
  ⟨rfl, rfl, by decide, by decide,
    sanitizeAttributes_external_forced tableLib tagsListSanitizer
      (startTag "a" [{ Namespace := "", Key := "href", Val := "abc.com" },
                     { Namespace := "", Key := "target", Val := "default" }])
      rfl rfl (by decide) (by decide) (by decide)⟩

/-- The names collected by the loop of `sanitizeAttributes` are the names of
the whitelisted attributes, in their order. -/
theorem foldl_attrStep_names (lib : Lib) (s : sanitizer) (attrs : List Attribute)
    (st : AttrState) :
    (attrs.foldl (attrStep lib s) st).attrs.map (fun a => (a.Namespace, a.Key)) =
      st.attrs.map (fun a => (a.Namespace, a.Key)) ++
        (attrs.filter (fun a => s.attributesMap a.Key)).map (fun a => (a.Namespace, a.Key)) := by
  induction attrs generalizing st with
  | nil => simp
  | cons a rest ih =>
    rw [List.foldl_cons, ih]
    by_cases hw : s.attributesMap a.Key = true
    · simp [attrStep, hw]
    · have hw2 : s.attributesMap a.Key = false := by simpa using hw
      rw [attrStep_dropped lib s st a hw2]
      simp [hw2]

/-- The attributes after the loop of `sanitizeAttributes`: the collected ones,
then nothing, `rel`, `target`, or `rel` and `target`. -/
theorem attrFinish_cases (s : sanitizer) (st : AttrState) :
    ∃ extra, attrFinish s st = st.attrs ++ extra ∧
      (extra = [] ∨ extra = [relNofollow] ∨ extra = [targetBlank] ∨
        extra = [relNofollow, targetBlank]) := by
  unfold attrFinish
  by_cases h0 : (st.is_link && !st.is_internal_link) = true
  · rw [if_pos h0]
    by_cases h1 : (st.no_rel && s.ForceRelNofollow) = true <;>
    by_cases h2 : (st.no_target && s.ForceTargetBlank) = true
    · exact ⟨[relNofollow, targetBlank], by simp [h1, h2, relNofollow, targetBlank], by simp⟩
    · exact ⟨[relNofollow], by simp [h1, h2, relNofollow], by simp⟩
    · exact ⟨[targetBlank], by simp [h1, h2, targetBlank], by simp⟩
    · exact ⟨[], by simp [h1, h2], by simp⟩
  · rw [if_neg h0]
    exact ⟨[], by simp, by simp⟩

theorem attributesMap_filter (s : sanitizer) :
    (fun x : Attribute => (setting s).attributesMap x.Key) =
      (fun x : Attribute => decide (x.Key ∈ s.Attributes)) := by
  funext x
  rw [setting_attributesMap]
  by_cases hx : x.Key ∈ s.Attributes
  · simp [hx, (slice2map_true _ _).mpr hx]
  · simp [hx, (slice2map_false _ _).mpr hx]

/-- C16 (attribute order): the result of `sanitizeAttributes` is the list of the
input attributes whose name is in `Attributes`, in their input order and under
their own names, followed by nothing, by `rel`, by `target`, or by `rel` and
then `target`. -/
theorem sanitizeAttributes_order (lib : Lib) (s : sanitizer) (t : Token) :
    ∃ kept extra, (sanitizeAttributes lib (setting s) t).Attr = kept ++ extra ∧
      kept.map (fun a => (a.Namespace, a.Key)) =
        (t.Attr.filter (fun a => decide (a.Key ∈ s.Attributes))).map
          (fun a => (a.Namespace, a.Key)) ∧
      (extra = [] ∨ extra = [relNofollow] ∨ extra = [targetBlank] ∨
        extra = [relNofollow, targetBlank]) := by
  obtain ⟨extra, he, hx⟩ := attrFinish_cases (setting s)
    (t.Attr.foldl (attrStep lib (setting s)) attrInit)
  refine ⟨_, extra, he, ?_, hx⟩
  rw [foldl_attrStep_names, attributesMap_filter]
  simp [attrInit]

/-! ## Further properties of the token loop -/

/-- The tag tokens that one step of the loop of `Sanitize` adds to the output
buffer: the token read, when it is a tag whose name is in the element map. -/
theorem loopStep_buf_tags_eq (lib : Lib) (s : sanitizer) (st : LoopState) (t : Token) :
    (loopStep lib s st t).buf.filter Token.isTag =
      st.buf.filter Token.isTag ++
        ([t].filter (fun x => x.isTag && s.elementsMap x.Data)).map (emitTag lib s) := by
  have hT : (sanitizeAttributes lib s t).isTag = t.isTag := rfl
  unfold loopStep
  split_ifs with h1 h2 h3 h4 h5 h6 h7 h8 h9 h10 h11 h12 <;>
    simp_all [Token.isTag, emitTag, List.filter_append, hT, sanitizeAttributes]

/-- The tag tokens in the output buffer after the loop of `Sanitize`. -/
theorem foldl_loopStep_buf_tags_eq (lib : Lib) (s : sanitizer) (toks : List Token)
    (st : LoopState) :
    (List.foldl (loopStep lib s) st toks).buf.filter Token.isTag =
      st.buf.filter Token.isTag ++
        (toks.filter (fun x => x.isTag && s.elementsMap x.Data)).map (emitTag lib s) := by
  induction toks generalizing st with
  | nil => simp
  | cons t ts ih =>
    rw [List.foldl_cons, ih, loopStep_buf_tags_eq]
    have : t :: ts = [t] ++ ts := rfl
    rw [this, List.filter_append, List.map_append, List.append_assoc]

theorem elementsMap_filter (s : sanitizer) :
    (fun x : Token => x.isTag && (setting s).elementsMap x.Data) =
      (fun x : Token => x.isTag && decide (x.Data ∈ s.Elements)) := by
  funext x
  rw [setting_elementsMap]
  by_cases hx : x.Data ∈ s.Elements
  · simp [hx, (slice2map_true _ _).mpr hx]
  · simp [hx, (slice2map_false _ _).mpr hx]

/-! ## Claims on the token filter, continued -/

/-- C19 (whitelisted tags bypass suppression): whatever the skip depth `k` the
loop of `Sanitize` starts from, the tag tokens written to the output buffer are
the start, self-closing and end tags read whose name is in `Elements`, in the
order of the input, the start and self-closing tags after
`sanitizeAttributes`. -/
theorem tokenLoop_tags_written (lib : Lib) (s : sanitizer) (toks : List Token) (k : Int) :
    ∃ st, tokenLoop lib (setting s) none toks { loopInit with skip := k } = Except.ok st ∧
      st.buf.filter Token.isTag =
        ((readTokens toks).filter (fun x => x.isTag && decide (x.Data ∈ s.Elements))).map
          (emitTag lib (setting s)) := by
  refine ⟨_, tokenLoop_eof lib (setting s) toks _, ?_⟩
  rw [foldl_loopStep_buf_tags_eq, elementsMap_filter]
  simp [loopInit]

/-- The state of the receiver after `Sanitize`: `setting` has run when the
input is valid, and nothing has when it is not. -/
theorem Sanitize_receiver (lib : Lib) (s : sanitizer) (str : String) :
    (Sanitize lib s str).1 = if lib.ValidString str = true then setting s else s := by
  unfold Sanitize
  by_cases hv : lib.ValidString str = true
  · simp only [hv, Bool.not_true, Bool.false_eq_true, if_false, if_true]
    cases tokenLoop lib (setting s) (lib.Tokenize (TrimSpace str)).err
        (lib.Tokenize (TrimSpace str)).tokens loopInit with
    | error e => rfl
    | ok st =>
      simp only
      split_ifs <;> rfl
  · simp [hv]

theorem setting_Elements (s : sanitizer) : (setting s).Elements = s.Elements := by
  unfold setting
  split_ifs <;> rfl

theorem setting_Attributes (s : sanitizer) : (setting s).Attributes = s.Attributes := by
  unfold setting
  split_ifs <;> rfl

/-- C18 as stated fails: `Sanitize` called on a configuration with `StripHtml`
set and a non-empty element list leaves `StripHtml` unset. -/
theorem Sanitize_config_counterexample :
    stripWithElements.StripHtml = true ∧
    (Sanitize tableLib stripWithElements "<p>default p</p>").1.StripHtml = false := by
  decide

/-- C18 amended: after `Sanitize` returns, the fields `Elements`, `Attributes`,
`URISchemes`, `EnsureInPairs`, `ForceHrefLink`, `ForceTargetBlank` and
`ForceRelNofollow` have the value they had before the call; `StripHtml` has it
too, except that on a valid input a call with a non-empty element list leaves
it unset. -/
theorem Sanitize_config (lib : Lib) (s : sanitizer) (str : String) :
    (Sanitize lib s str).1.Elements = s.Elements ∧
    (Sanitize lib s str).1.Attributes = s.Attributes ∧
    (Sanitize lib s str).1.URISchemes = s.URISchemes ∧
    (Sanitize lib s str).1.EnsureInPairs = s.EnsureInPairs ∧
    (Sanitize lib s str).1.ForceHrefLink = s.ForceHrefLink ∧
    (Sanitize lib s str).1.ForceTargetBlank = s.ForceTargetBlank ∧
    (Sanitize lib s str).1.ForceRelNofollow = s.ForceRelNofollow ∧
    (Sanitize lib s str).1.StripHtml =
      (if lib.ValidString str = true then s.StripHtml && decide (s.Elements = [])
       else s.StripHtml) := by
  rw [Sanitize_receiver]
  cases hv : lib.ValidString str with
  | true =>
    simp only [if_true]
    exact ⟨setting_Elements s, setting_Attributes s, setting_URISchemes s,
      setting_EnsureInPairs s, setting_ForceHrefLink s, setting_ForceTargetBlank s,
      setting_ForceRelNofollow s, setting_StripHtml s⟩
  | false => simp

/-! ## Replaying the attribute rewriter on its own result -/

theorem HasPrefix_http (l : String) : HasPrefix ("http://" ++ l) "http" = true := by
  unfold HasPrefix utf8Bytes
  rw [String.data_append, utf8BytesOf_append]
  have h1 : utf8BytesOf ("http" : String).data = [104, 116, 116, 112] := by decide
  have h2 : utf8BytesOf ("http://" : String).data = [104, 116, 116, 112, 58, 47, 47] := by decide
  rw [h1, h2]
  rfl

theorem http_append_not_internal (l : String) : isInternalLink ("http://" ++ l) = false := by
  cases hb : isInternalLink ("http://" ++ l) with
  | false => rfl
  | true =>
    exfalso
    have hd : ("http://" ++ l).data = 'h' :: ("ttp://".data ++ l.data) := by
      rw [String.data_append]; rfl
    have hs : ("http://" ++ l) = ⟨'h' :: ("ttp://".data ++ l.data)⟩ := String.ext hd
    rw [hs] at hb
    rcases (isInternalLink_chars _).mp hb with h | ⟨r, h⟩ | ⟨c, r, h, _⟩
    · simp at h
    · simp at h
    · simp at h

theorem http_append_not_blank (l : String) : TrimSpace ("http://" ++ l) ≠ "" := by
  have hd : ("http://" ++ l).data = 'h' :: ("ttp://".data ++ l.data) := by
    rw [String.data_append]; rfl
  have hs : ("http://" ++ l) = ⟨'h' :: ("ttp://".data ++ l.data)⟩ := String.ext hd
  rw [hs]
  exact TrimSpace_ne_empty _ _ (by decide)

/-- Under `ForceHrefLink`, with `http` in the scheme list, `sanitizeLink` leaves
its own results unchanged. -/
theorem sanitizeLink_idempotent (lib : Lib) (s : sanitizer) (l : String)
    (hf : s.ForceHrefLink = true) (hh : "http" ∈ s.URISchemes) :
    sanitizeLink lib s (sanitizeLink lib s l) = sanitizeLink lib s l := by
  by_cases hb : TrimSpace l = ""
  · have h1 : sanitizeLink lib s l = "" := by unfold sanitizeLink; rw [if_pos hb]
    rw [h1]
    unfold sanitizeLink
    rw [if_pos TrimSpace_empty]
  · cases hi : isInternalLink l with
    | true =>
      rw [sanitizeLink_of_internal lib s l hi, sanitizeLink_of_internal lib s l hi]
    | false =>
      rw [sanitizeLink_forced lib s l hf hb hi]
      unfold forceHttpScheme
      rcases forceHttpSchemeLoop_cases l s.URISchemes with h | h
      · rw [h, sanitizeLink_forced lib s l hf hb hi]
        unfold forceHttpScheme
        exact h
      · rw [h, sanitizeLink_forced lib s _ hf (http_append_not_blank l)
          (http_append_not_internal l)]
        unfold forceHttpScheme
        exact forceHttpSchemeLoop_matched _ _ ⟨"http", hh, HasPrefix_http l⟩

/-- The attribute appended by one step of the loop of `sanitizeAttributes`, fed
to the same step again, gives the same state, when `sanitizeLink` leaves its
own results unchanged. -/
theorem attrStep_replay (lib : Lib) (s : sanitizer) (st : AttrState) (a b : Attribute)
    (hidem : ∀ l, sanitizeLink lib s (sanitizeLink lib s l) = sanitizeLink lib s l)
    (hw : s.attributesMap a.Key = true)
    (hb : (attrStep lib s st a).attrs = st.attrs ++ [b]) :
    attrStep lib s st b = attrStep lib s st a := by
  have e1 : ("href" : String) ≠ "target" := by decide
  have e2 : ("href" : String) ≠ "rel" := by decide
  have e3 : ("src" : String) ≠ "target" := by decide
  have e4 : ("src" : String) ≠ "rel" := by decide
  have e5 : ("src" : String) ≠ "href" := by decide
  have e6 : ("target" : String) ≠ "href" := by decide
  have e7 : ("target" : String) ≠ "src" := by decide
  have e8 : ("target" : String) ≠ "rel" := by decide
  have e9 : ("rel" : String) ≠ "href" := by decide
  have e10 : ("rel" : String) ≠ "src" := by decide
  have e11 : ("rel" : String) ≠ "target" := by decide
  obtain ⟨ns, key, val⟩ := a
  simp only at hw
  by_cases k1 : key = "href"
  · subst k1
    simp only [attrStep, hw, e1, e2, if_true, true_or, false_and, decide_False,
      Bool.false_eq_true, if_false, List.append_cancel_left_eq, List.cons.injEq,
      and_true] at hb
    subst hb
    simp [attrStep, hw, e1, e2, hidem]
  · by_cases k2 : key = "src"
    · subst k2
      simp only [attrStep, hw, e3, e4, e5, if_true, or_true, false_and, decide_False,
        Bool.false_eq_true, if_false, List.append_cancel_left_eq, List.cons.injEq,
        and_true] at hb
      subst hb
      simp [attrStep, hw, e3, e4, e5, hidem]
    · by_cases k3 : key = "target"
      · subst k3
        by_cases hforce : st.is_internal_link = false ∧ s.ForceTargetBlank = true
        · simp only [attrStep, hw, e6, e7, e8, hforce, if_true, or_self, and_self, decide_True,
            false_and, decide_False, Bool.false_eq_true, if_false,
            List.append_cancel_left_eq, List.cons.injEq, and_true] at hb
          subst hb
          simp [attrStep, hw, e6, e7, e8, hforce]
        · simp only [attrStep, hw, e6, e7, e8, hforce, if_true, or_self, true_and,
            decide_False, false_and, Bool.false_eq_true, if_false,
            List.append_cancel_left_eq, List.cons.injEq, and_true] at hb
          subst hb
          rfl
      · by_cases k4 : key = "rel"
        · subst k4
          by_cases hforce : st.is_internal_link = false ∧ s.ForceRelNofollow = true
          · simp only [attrStep, hw, e9, e10, e11, hforce, if_true, or_self, and_self,
              decide_True, false_and, decide_False, Bool.false_eq_true, if_false,
              List.append_cancel_left_eq, List.cons.injEq, and_true] at hb
            subst hb
            simp [attrStep, hw, e9, e10, e11, hforce]
          · simp only [attrStep, hw, e9, e10, e11, hforce, if_true, or_self, true_and,
              decide_False, false_and, Bool.false_eq_true, if_false,
              List.append_cancel_left_eq, List.cons.injEq, and_true] at hb
            subst hb
            rfl
        · simp only [attrStep, hw, k1, k2, k3, k4, if_true, or_self, false_and,
            decide_False, Bool.false_eq_true, if_false,
            List.append_cancel_left_eq, List.cons.injEq, and_true] at hb
          subst hb
          rfl

/-- The loop of `sanitizeAttributes`, run on the attributes it collected,
ends in the state in which it collected them. -/
theorem foldl_attrStep_replay (lib : Lib) (s : sanitizer)
    (hidem : ∀ l, sanitizeLink lib s (sanitizeLink lib s l) = sanitizeLink lib s l)
    (attrs : List Attribute) :
    (attrs.foldl (attrStep lib s) attrInit).attrs.foldl (attrStep lib s) attrInit =
      attrs.foldl (attrStep lib s) attrInit := by
  induction attrs using List.reverseRecOn with
  | nil => rfl
  | append_singleton l a ih =>
    rw [List.foldl_append, List.foldl_cons, List.foldl_nil]
    by_cases hw : s.attributesMap a.Key = true
    · obtain ⟨b, hb, _⟩ := attrStep_kept lib s (l.foldl (attrStep lib s) attrInit) a hw
      rw [hb, List.foldl_append, ih, List.foldl_cons, List.foldl_nil]
      exact attrStep_replay lib s _ a b hidem hw hb
    · rw [attrStep_dropped lib s _ a (by simpa using hw)]
      exact ih

/-- The statements after the loop of `sanitizeAttributes` append nothing new
when the function runs on its own result, provided `rel` and `target` are in
the attribute map. -/
theorem attrFinish_replay (lib : Lib) (s : sanitizer) (st : AttrState)
    (hrep : st.attrs.foldl (attrStep lib s) attrInit = st)
    (hrel : s.attributesMap "rel" = true) (htarget : s.attributesMap "target" = true) :
    attrFinish s ((attrFinish s st).foldl (attrStep lib s) attrInit) = attrFinish s st := by
  have e1 : ("rel" : String) ≠ "href" := by decide
  have e2 : ("rel" : String) ≠ "src" := by decide
  have e3 : ("rel" : String) ≠ "target" := by decide
  have e4 : ("target" : String) ≠ "href" := by decide
  have e5 : ("target" : String) ≠ "src" := by decide
  have e6 : ("target" : String) ≠ "rel" := by decide
  obtain ⟨attrs, il, ii, nt, nr⟩ := st
  simp only at hrep
  cases il <;> cases ii <;> cases nt <;> cases nr <;>
    cases hr : s.ForceRelNofollow <;> cases ht : s.ForceTargetBlank <;>
    simp [attrFinish, List.foldl_append, hrep, attrStep, hrel, htarget, hr, ht,
      e1, e2, e3, e4, e5, e6]

/-- The function `sanitizeAttributes` leaves its own result unchanged when
`sanitizeLink` does and `rel` and `target` are in the attribute map. -/
theorem sanitizeAttributes_replay (lib : Lib) (s : sanitizer) (t : Token)
    (hidem : ∀ l, sanitizeLink lib s (sanitizeLink lib s l) = sanitizeLink lib s l)
    (hrel : s.attributesMap "rel" = true) (htarget : s.attributesMap "target" = true) :
    sanitizeAttributes lib s (sanitizeAttributes lib s t) = sanitizeAttributes lib s t := by
  simp only [sanitizeAttributes]
  rw [attrFinish_replay lib s _ (foldl_attrStep_replay lib s hidem t.Attr) hrel htarget]

/-- The same for a configuration after `setting`, in terms of its lists. -/
theorem sanitizeAttributes_replay_setting (lib : Lib) (s : sanitizer) (t : Token)
    (hf : s.ForceHrefLink = true) (hh : "http" ∈ s.URISchemes)
    (hrel : "rel" ∈ s.Attributes) (htarget : "target" ∈ s.Attributes) :
    sanitizeAttributes lib (setting s) (sanitizeAttributes lib (setting s) t) =
      sanitizeAttributes lib (setting s) t := by
  apply sanitizeAttributes_replay
  · intro l
    exact sanitizeLink_idempotent lib (setting s) l
      (by rw [setting_ForceHrefLink]; exact hf) (by rw [setting_URISchemes]; exact hh)
  · rw [setting_attributesMap]; exact (slice2map_true _ _).mpr hrel
  · rw [setting_attributesMap]; exact (slice2map_true _ _).mpr htarget

/-- C20 (idempotence of the attribute rewriter under the default preset): under
`NewDefault`, `sanitizeAttributes` applied to its own result returns that
result unchanged, whatever the attributes of the tag. -/
theorem sanitizeAttributes_idempotent_default (lib : Lib) (t : Token) :
    sanitizeAttributes lib (setting NewDefault) (sanitizeAttributes lib (setting NewDefault) t) =
      sanitizeAttributes lib (setting NewDefault) t :=
  sanitizeAttributes_replay_setting lib NewDefault t rfl (by decide) (by decide) (by decide)

/-! ## Running the token filter on its own output -/

/-- C17 as stated fails, in four ways.  Under the default configuration the
input `<html></p>` is balanced and gives `</p>`, on which the second call
returns the pairing error.  With `ForceHrefLink` set and no `http` in
`URISchemes`, the second call puts `http://` in front of the `href` again.
Under the default configuration `<html> hi </html>` gives ` hi `, which the
second call trims to `hi`.  With `target` whitelisted and `rel` not, the second
call swaps the appended `rel` and `target`. -/
theorem Sanitize_idempotent_counterexample :
    ((Sanitize tableLib NewDefault "<html></p>").2 = ("</p>", none) ∧
      (Sanitize tableLib (Sanitize tableLib NewDefault "<html></p>").1 "</p>").2 =
        ("", some "Tags pairs mismatch!")) ∧
    ((Sanitize tableLib noSchemeSanitizer linkBare).2 = (linkHttp, none) ∧
      (Sanitize tableLib (Sanitize tableLib noSchemeSanitizer linkBare).1 linkHttp).2 =
        (linkHttpTwice, none) ∧ linkHttpTwice ≠ linkHttp) ∧
    ((Sanitize tableLib NewDefault "<html> hi </html>").2 = (" hi ", none) ∧
      (Sanitize tableLib (Sanitize tableLib NewDefault "<html> hi </html>").1 " hi ").2 =
        ("hi", none)) ∧
    ((Sanitize tableLib targetOnlySanitizer linkHttp).2 = (linkHttpForced, none) ∧
      (Sanitize tableLib (Sanitize tableLib targetOnlySanitizer linkHttp).1
          linkHttpForced).2 = (linkHttpSwapped, none) ∧
      linkHttpSwapped ≠ linkHttpForced) := by
  refine ⟨⟨by decide, by decide⟩, ⟨by decide, by decide, by decide⟩,
    ⟨by decide, by decide⟩, ⟨by decide, by decide, by decide⟩⟩

theorem setting_setting (s : sanitizer) : setting (setting s) = setting s := by
  cases hE : s.Elements with
  | nil => simp [setting, hE]
  | cons x xs => simp [setting, hE]

theorem readTokens_not_error (toks : List Token) :
    ∀ t ∈ readTokens toks, t.Typ ≠ TokenType.ErrorToken := by
  intro t ht
  have := List.mem_takeWhile_imp ht
  simpa using this

theorem readTokens_self (toks : List Token) (h : ∀ t ∈ toks, t.Typ ≠ TokenType.ErrorToken) :
    readTokens toks = toks := by
  unfold readTokens
  rw [List.takeWhile_eq_self_iff]
  intro t ht
  simpa using h t ht

/-- One step of the loop writes no `ErrorToken` when it reads none. -/
theorem loopStep_buf_not_error (lib : Lib) (s : sanitizer) (st : LoopState) (t : Token)
    (ht : t.Typ ≠ TokenType.ErrorToken)
    (h : ∀ x ∈ st.buf, x.Typ ≠ TokenType.ErrorToken) :
    ∀ x ∈ (loopStep lib s st t).buf, x.Typ ≠ TokenType.ErrorToken := by
  intro x hx
  unfold loopStep at hx
  split_ifs at hx <;>
    first
      | exact h x hx
      | (simp only [List.mem_append, List.mem_singleton] at hx
         rcases hx with hx | hx
         · exact h x hx
         · subst hx
           exact ht)

/-- One step of the loop, with `StripHtml` unset and a skip depth of zero, on
a token that is not an `ErrorToken`, that is whitelisted when it is a tag and
that `sanitizeAttributes` leaves unchanged: the token is written as it is. -/
theorem loopStep_clean (lib : Lib) (s : sanitizer) (st : LoopState) (t : Token)
    (hk : st.skip = 0)
    (hw : t.isTag = true → s.elementsMap t.Data = true)
    (hfix : t.Typ = TokenType.StartTagToken ∨ t.Typ = TokenType.SelfClosingTagToken →
      sanitizeAttributes lib s t = t) :
    (loopStep lib s st t).buf = st.buf ++ [t] ∧ (loopStep lib s st t).skip = 0 := by
  unfold loopStep
  by_cases h1 : t.Typ = TokenType.StartTagToken ∨ t.Typ = TokenType.SelfClosingTagToken
  · have hmap : s.elementsMap t.Data = true := hw (by
      rcases h1 with h | h <;> simp [Token.isTag, h])
    rw [if_pos h1]
    simp only [hmap, Bool.not_true, Bool.false_eq_true, if_false, hfix h1]
    split_ifs <;> simp [hk]
  · rw [if_neg h1]
    by_cases h2 : t.Typ = TokenType.EndTagToken
    · have hmap : s.elementsMap t.Data = true := hw (by simp [Token.isTag, h2])
      rw [if_pos h2]
      simp only [hmap, Bool.not_true, Bool.false_eq_true, if_false]
      simp [hk]
    · rw [if_neg h2, if_pos hk]
      split_ifs <;> simp [hk]

theorem foldl_loopStep_clean (lib : Lib) (s : sanitizer) (toks : List Token) (st : LoopState)
    (hk : st.skip = 0)
    (hw : ∀ t ∈ toks, t.isTag = true → s.elementsMap t.Data = true)
    (hfix : ∀ t ∈ toks, t.Typ = TokenType.StartTagToken ∨ t.Typ = TokenType.SelfClosingTagToken →
      sanitizeAttributes lib s t = t) :
    (List.foldl (loopStep lib s) st toks).buf = st.buf ++ toks := by
  induction toks generalizing st with
  | nil => simp
  | cons t ts ih =>
    obtain ⟨hb, hk2⟩ := loopStep_clean lib s st t hk (hw t (List.mem_cons_self _ _))
      (hfix t (List.mem_cons_self _ _))
    rw [List.foldl_cons, ih _ hk2 (fun x hx => hw x (List.mem_cons_of_mem _ hx))
      (fun x hx => hfix x (List.mem_cons_of_mem _ hx)), hb]
    simp

/-- One step of the loop, with `StripHtml` set and a skip depth of zero, on a
text token: the token is written to the stripped-text buffer. -/
theorem loopStep_text (lib : Lib) (s : sanitizer) (st : LoopState) (t : Token)
    (hs : s.StripHtml = true) (hk : st.skip = 0) (ht : t.Typ = TokenType.TextToken) :
    (loopStep lib s st t).strip = st.strip ++ [t] ∧ (loopStep lib s st t).skip = 0 := by
  unfold loopStep
  simp [ht, hs, hk]

theorem foldl_loopStep_text (lib : Lib) (s : sanitizer) (toks : List Token) (st : LoopState)
    (hs : s.StripHtml = true) (hk : st.skip = 0)
    (ht : ∀ t ∈ toks, t.Typ = TokenType.TextToken) :
    (List.foldl (loopStep lib s) st toks).strip = st.strip ++ toks := by
  induction toks generalizing st with
  | nil => simp
  | cons t ts ih =>
    obtain ⟨hb, hk2⟩ := loopStep_text lib s st t hs hk (ht t (List.mem_cons_self _ _))
    rw [List.foldl_cons, ih _ hk2 (fun x hx => ht x (List.mem_cons_of_mem _ hx)), hb]
    simp

/-- The tokens written to the returned buffer hold no `ErrorToken`, are text
tokens when `StripHtml` is set, and their tags are in the element map. -/
theorem writtenTokens_spec (lib : Lib) (s : sanitizer) (str : String) :
    (∀ t ∈ writtenTokens lib s str, t.Typ ≠ TokenType.ErrorToken) ∧
    ((setting s).StripHtml = true →
      ∀ t ∈ writtenTokens lib s str, t.Typ = TokenType.TextToken) ∧
    ((setting s).StripHtml = false →
      ∀ t ∈ writtenTokens lib s str, t.isTag = true → (setting s).elementsMap t.Data = true) := by
  have hstrip := foldl_loopStep_invariant lib (setting s)
    (fun st => ∀ x ∈ st.strip, x.Typ = TokenType.TextToken ∧ (setting s).StripHtml = true)
    (fun st t h => loopStep_strip lib (setting s) st t h)
    (readTokens (lib.Tokenize (TrimSpace str)).tokens) loopInit
    (by intro x hx; simp [loopInit] at hx)
  have hbuf := foldl_loopStep_invariant lib (setting s)
    (fun st => ∀ x ∈ st.buf, x.isTag = true → (setting s).elementsMap x.Data = true)
    (fun st t h => loopStep_buf_tags lib (setting s) st t h)
    (readTokens (lib.Tokenize (TrimSpace str)).tokens) loopInit
    (by intro x hx; simp [loopInit] at hx)
  have herr := foldl_loopStep_invariant_mem lib (setting s)
    (fun st => ∀ x ∈ st.buf, x.Typ ≠ TokenType.ErrorToken)
    (readTokens (lib.Tokenize (TrimSpace str)).tokens)
    (fun st t ht h => loopStep_buf_not_error lib (setting s) st t
      (readTokens_not_error _ t ht) h)
    loopInit (by intro x hx; simp [loopInit] at hx)
  unfold writtenTokens
  cases hS : (setting s).StripHtml with
  | true =>
    simp only [if_true]
    refine ⟨fun t ht => ?_, fun _ t ht => (hstrip t ht).1, fun h => by simp at h⟩
    rw [(hstrip t ht).1]; decide
  | false =>
    simp only [Bool.false_eq_true, if_false]
    exact ⟨herr, fun h => by simp at h, fun _ => hbuf⟩

/-- The string returned by a successful call of `Sanitize` is the rendering of
the written tokens. -/
theorem Sanitize_ok_written (lib : Lib) (s : sanitizer) (str o : String)
    (hok : (Sanitize lib s str).2 = (o, none)) : o = render lib (writtenTokens lib s str) := by
  obtain ⟨hv, he⟩ := Sanitize_ok_inv lib s str o hok
  rw [Sanitize_eof lib s str hv he] at hok
  unfold writtenTokens
  split_ifs at hok with h1 h2
  · simp at hok
  · rw [if_pos h2]; exact ((Prod.mk.injEq _ _ _ _).mp hok).1.symm
  · rw [if_neg h2]; exact ((Prod.mk.injEq _ _ _ _).mp hok).1.symm

/-- With `ForceHrefLink` unset, `sanitizeLink` leaves its own results unchanged
when `url.Parse` reads back the URLs it serializes. -/
theorem sanitizeLink_idempotent_parsed (lib : Lib) (s : sanitizer) (l : String)
    (hf : s.ForceHrefLink = false) (hp : ParseReadsBack lib s) :
    sanitizeLink lib (setting s) (sanitizeLink lib (setting s) l) =
      sanitizeLink lib (setting s) l := by
  have hf2 : (setting s).ForceHrefLink = false := by rw [setting_ForceHrefLink]; exact hf
  have hempty : sanitizeLink lib (setting s) "" = "" := by
    unfold sanitizeLink; rw [if_pos TrimSpace_empty]
  by_cases hb : TrimSpace l = ""
  · have h1 : sanitizeLink lib (setting s) l = "" := by unfold sanitizeLink; rw [if_pos hb]
    rw [h1, hempty]
  · cases hi : isInternalLink l with
    | true =>
      rw [sanitizeLink_of_internal lib (setting s) l hi,
        sanitizeLink_of_internal lib (setting s) l hi]
    | false =>
      have hval : sanitizeLink lib (setting s) l =
          match lib.UrlParse l with
          | none => ""
          | some (scheme, str) => if (setting s).uriSchemesMap scheme then "" else str := by
        unfold sanitizeLink
        rw [if_neg hb, hi, hf2]
        simp
      cases hparse : lib.UrlParse l with
      | none =>
        rw [hval, hparse]
        exact hempty
      | some r =>
        obtain ⟨scheme, str⟩ := r
        rw [hval, hparse]
        simp only
        rw [setting_uriSchemesMap]
        by_cases hm : scheme ∈ s.URISchemes
        · rw [(slice2map_true _ _).mpr hm]
          simpa using hempty
        · rw [(slice2map_false _ _).mpr hm]
          simp only [Bool.false_eq_true, if_false]
          obtain ⟨hblank, hback⟩ := hp l scheme str hparse hm
          by_cases hb2 : TrimSpace str = ""
          · rcases hblank with h | h
            · rw [h]; exact hempty
            · exact absurd hb2 h
          · cases hi2 : isInternalLink str with
            | true => exact sanitizeLink_of_internal lib (setting s) str hi2
            | false =>
              rcases hback with h | h
              · rw [hi2] at h; simp at h
              · unfold sanitizeLink
                rw [if_neg hb2, hi2, hf2, h, setting_uriSchemesMap]
                simp [(slice2map_false _ _).mpr hm]

/-- The library instance `parseLib` reads back the URLs it serializes. -/
theorem ParseReadsBack_parseLib : ParseReadsBack parseLib parseSanitizer := by
  intro l scheme str h hm
  simp only [parseLib, tableUrlParse] at h
  split_ifs at h with h1 h2
  · simp only [Option.some.injEq, Prod.mk.injEq] at h
    obtain ⟨h3, h4⟩ := h
    subst h3
    subst h4
    exact ⟨Or.inr (by decide), Or.inr (by decide)⟩
  · simp only [Option.some.injEq, Prod.mk.injEq] at h
    obtain ⟨h3, _⟩ := h
    subst h3
    exact absurd (by decide) hm

/-- The statements after the loop of `sanitizeAttributes` append nothing new
when the function runs on its own result, provided `rel` and `target` are both
in the attribute map or both out of it. -/
theorem attrFinish_replay_same (lib : Lib) (s : sanitizer) (st : AttrState)
    (hrep : st.attrs.foldl (attrStep lib s) attrInit = st)
    (hsame : s.attributesMap "rel" = s.attributesMap "target") :
    attrFinish s ((attrFinish s st).foldl (attrStep lib s) attrInit) = attrFinish s st := by
  cases hrel : s.attributesMap "rel" with
  | true =>
    exact attrFinish_replay lib s st hrep hrel (by rw [← hsame]; exact hrel)
  | false =>
    have htarget : s.attributesMap "target" = false := by rw [← hsame]; exact hrel
    obtain ⟨attrs, il, ii, nt, nr⟩ := st
    simp only at hrep
    cases il <;> cases ii <;> cases nt <;> cases nr <;>
      cases hr : s.ForceRelNofollow <;> cases ht : s.ForceTargetBlank <;>
      simp [attrFinish, List.foldl_append, hrep, attrStep, hrel, htarget, hr, ht]

/-- The function `sanitizeAttributes` leaves its own result unchanged when
`sanitizeLink` does and `rel` and `target` are both in the attribute map or
both out of it. -/
theorem sanitizeAttributes_replay_same (lib : Lib) (s : sanitizer) (t : Token)
    (hidem : ∀ l, sanitizeLink lib s (sanitizeLink lib s l) = sanitizeLink lib s l)
    (hsame : s.attributesMap "rel" = s.attributesMap "target") :
    sanitizeAttributes lib s (sanitizeAttributes lib s t) = sanitizeAttributes lib s t := by
  simp only [sanitizeAttributes]
  rw [attrFinish_replay_same lib s _ (foldl_attrStep_replay lib s hidem t.Attr) hsame]

/-- The start and self-closing tags among the written tokens are results of
`sanitizeAttributes`. -/
theorem writtenTokens_sanitized (lib : Lib) (s : sanitizer) (str : String)
    (hS : (setting s).StripHtml = false) :
    ∀ t ∈ writtenTokens lib s str,
      t.Typ = TokenType.StartTagToken ∨ t.Typ = TokenType.SelfClosingTagToken →
        ∃ t0, t = sanitizeAttributes lib (setting s) t0 := by
  have key := foldl_loopStep_invariant lib (setting s)
    (fun st => ∀ x ∈ st.buf,
      x.Typ = TokenType.StartTagToken ∨ x.Typ = TokenType.SelfClosingTagToken →
        ∃ t0, x = sanitizeAttributes lib (setting s) t0)
    (fun st t h => loopStep_buf_sanitized lib (setting s) st t h)
    (readTokens (lib.Tokenize (TrimSpace str)).tokens) loopInit
    (by intro x hx; simp [loopInit] at hx)
  unfold writtenTokens
  rw [hS]
  simpa using key

theorem countStartTags_tags (l : List Token) :
    countStartTags (l.filter Token.isTag) = countStartTags l := by
  induction l with
  | nil => rfl
  | cons t ts ih =>
    by_cases h : t.isTag = true
    · rw [List.filter_cons_of_pos h, countStartTags_cons, countStartTags_cons t ts, ih]
    · rw [List.filter_cons_of_neg h, countStartTags_cons t ts, ih]
      have : countStartTags [t] = 0 := by
        simp only [Token.isTag, Bool.or_eq_true, decide_eq_true_eq, not_or] at h
        simp [countStartTags, h.1.1]
      omega

theorem countEndTags_tags (l : List Token) :
    countEndTags (l.filter Token.isTag) = countEndTags l := by
  induction l with
  | nil => rfl
  | cons t ts ih =>
    by_cases h : t.isTag = true
    · rw [List.filter_cons_of_pos h, countEndTags_cons, countEndTags_cons t ts, ih]
    · rw [List.filter_cons_of_neg h, countEndTags_cons t ts, ih]
      have : countEndTags [t] = 0 := by
        simp only [Token.isTag, Bool.or_eq_true, decide_eq_true_eq, not_or] at h
        simp [countEndTags, h.2]
      omega

theorem mem_of_tags_eq (a b : List Token) (h : a.filter Token.isTag = b.filter Token.isTag)
    (t : Token) (ht : t ∈ a) (htag : t.isTag = true) : t ∈ b := by
  have : t ∈ a.filter Token.isTag := List.mem_filter.mpr ⟨ht, htag⟩
  rw [h] at this
  exact (List.mem_filter.mp this).1

/-- C17 amended: when `Sanitize` succeeds with output `o`, a second call on `o`
with the same configuration succeeds and returns `o` again, provided that
(1) under `ForceHrefLink` the scheme list holds `http`, and without it
`url.Parse` reads back the URLs it serializes; (2) `rel` and `target` are both
in `Attributes` or both out of it; (3) the tokenizer reads `o` to the end and
finds in it the tag tokens that were written, in the same order, between tokens
that render to the same text (text tokens only, under `StripHtml`); (4) under
`EnsureInPairs` the written tokens hold as many start tags that are not void
elements as end tags. -/
theorem Sanitize_idempotent (lib : Lib) (s : sanitizer) (str o : String)
    (hok : (Sanitize lib s str).2 = (o, none))
    (hvalid : lib.ValidString o = true)
    (hforce : s.ForceHrefLink = true → "http" ∈ s.URISchemes)
    (hparse : s.ForceHrefLink = false → ParseReadsBack lib s)
    (hsame : "rel" ∈ s.Attributes ↔ "target" ∈ s.Attributes)
    (herr : (lib.Tokenize (TrimSpace o)).err = none)
    (htags : (readTokens (lib.Tokenize (TrimSpace o)).tokens).filter Token.isTag =
      (writtenTokens lib s str).filter Token.isTag)
    (htext : (setting s).StripHtml = true →
      ∀ t ∈ readTokens (lib.Tokenize (TrimSpace o)).tokens, t.Typ = TokenType.TextToken)
    (hrender : render lib (readTokens (lib.Tokenize (TrimSpace o)).tokens) = o)
    (hpairs : s.EnsureInPairs = true →
      countStartTags (writtenTokens lib s str) = countEndTags (writtenTokens lib s str)) :
    (Sanitize lib (Sanitize lib s str).1 o).2 = (o, none) := by
  obtain ⟨hv, _⟩ := Sanitize_ok_inv lib s str o hok
  obtain ⟨_, _, hwl⟩ := writtenTokens_spec lib s str
  have hrecv : (Sanitize lib s str).1 = setting s := by
    rw [Sanitize_receiver, if_pos hv]
  have hidem : ∀ l, sanitizeLink lib (setting s) (sanitizeLink lib (setting s) l) =
      sanitizeLink lib (setting s) l := by
    intro l
    cases hf : s.ForceHrefLink with
    | true =>
      exact sanitizeLink_idempotent lib (setting s) l
        (by rw [setting_ForceHrefLink]; exact hf)
        (by rw [setting_URISchemes]; exact hforce hf)
    | false => exact sanitizeLink_idempotent_parsed lib s l hf (hparse hf)
  have hmaps : (setting s).attributesMap "rel" = (setting s).attributesMap "target" := by
    rw [setting_attributesMap]
    by_cases hr : "rel" ∈ s.Attributes
    · rw [(slice2map_true _ _).mpr hr, (slice2map_true _ _).mpr (hsame.mp hr)]
    · rw [(slice2map_false _ _).mpr hr,
        (slice2map_false _ _).mpr (fun h => hr (hsame.mpr h))]
  have hc := foldl_loopStep_counters lib (setting s)
    (readTokens (lib.Tokenize (TrimSpace o)).tokens) loopInit
  have hcs : countStartTags (readTokens (lib.Tokenize (TrimSpace o)).tokens) =
      countStartTags (writtenTokens lib s str) := by
    rw [← countStartTags_tags, htags, countStartTags_tags]
  have hce : countEndTags (readTokens (lib.Tokenize (TrimSpace o)).tokens) =
      countEndTags (writtenTokens lib s str) := by
    rw [← countEndTags_tags, htags, countEndTags_tags]
  rw [hrecv, Sanitize_eof lib (setting s) o hvalid herr, setting_setting, hc.1, hc.2,
    setting_EnsureInPairs, hcs, hce]
  simp only [loopInit, Nat.zero_add]
  have hbal : ¬ (s.EnsureInPairs = true ∧
      countStartTags (writtenTokens lib s str) ≠ countEndTags (writtenTokens lib s str)) :=
    fun h => h.2 (hpairs h.1)
  rw [if_neg hbal]
  cases hS : (setting s).StripHtml with
  | true =>
    simp only [if_true]
    have := foldl_loopStep_text lib (setting s)
      (readTokens (lib.Tokenize (TrimSpace o)).tokens) loopInit hS rfl (htext hS)
    simp only [loopInit, List.nil_append] at this
    rw [this, hrender]
  | false =>
    simp only [Bool.false_eq_true, if_false]
    have := foldl_loopStep_clean lib (setting s)
      (readTokens (lib.Tokenize (TrimSpace o)).tokens) loopInit rfl
      (fun t ht htag => hwl hS t (mem_of_tags_eq _ _ htags t ht htag) htag)
      (fun t ht htyp => by
        have htag : t.isTag = true := by
          rcases htyp with h | h <;> simp [Token.isTag, h]
        obtain ⟨t0, h0⟩ := writtenTokens_sanitized lib s str hS t
          (mem_of_tags_eq _ _ htags t ht htag) htyp
        rw [h0]
        exact sanitizeAttributes_replay_same lib (setting s) t0 hidem hmaps)
    simp only [loopInit, List.nil_append] at this
    rw [this, hrender]

/-- Witness of C17 amended.  The default configuration on `<html>a</html>b`
writes the two text tokens `a` and `b` and returns `ab`, which the tokenizer
reads back as the one text token `ab`.  The configuration of
`Test_Sanitize_TagsList` on the link with `href` equal to `abc.com` returns the
link with `http://` in front of the `href` and with `rel` and `target`
appended, and returns it again on the second call. -/
theorem Sanitize_idempotent_witness :
    ((Sanitize tableLib NewDefault "<html>a</html>b").2 = ("ab", none) ∧
      writtenTokens tableLib NewDefault "<html>a</html>b" = [textToken "a", textToken "b"] ∧
      readTokens (tableLib.Tokenize (TrimSpace "ab")).tokens = [textToken "ab"] ∧
      (Sanitize tableLib (Sanitize tableLib NewDefault "<html>a</html>b").1 "ab").2 =
        ("ab", none)) ∧
    ((Sanitize tableLib tagsListSanitizer linkBare).2 = (linkHttpForced, none) ∧
      linkHttpForced ≠ linkBare ∧
      (Sanitize tableLib (Sanitize tableLib tagsListSanitizer linkBare).1 linkHttpForced).2 =
        (linkHttpForced, none)) :=
  ⟨⟨by decide, by decide, by decide,
    Sanitize_idempotent tableLib NewDefault "<html>a</html>b" "ab"
      (by decide) rfl (fun _ => by decide) (fun h => absurd h (by decide)) (by decide)
      (by decide) (by decide) (fun h => absurd h (by decide)) (by decide) (by decide)⟩,
   ⟨by decide, by decide,
    Sanitize_idempotent tableLib tagsListSanitizer linkBare linkHttpForced
      (by decide) rfl (fun _ => by decide) (fun h => absurd h (by decide)) (by decide)
      (by decide) (by decide) (fun h => absurd h (by decide)) (by decide) (by decide)⟩⟩

end Gosanitize
